import Mathlib

/-!
# webidl-bind: transform actions and the Go/WASM emitter

A shallow embedding of

* `transform/actions.go`: the three rule actions (`property`, `rename`,
  `globalRegExp`) and their four per-kind handlers;
* `gowasm/gowasm.go`: `sourceCodeRemoveEmptyLines`, `getTarget`, `writeType` and
  `WriteSource`;
* `gowasm/callback.go`: `callbackTmplInput` and `writeCallback`.

Go pointers to schema elements become explicit state passing: every handler
returns the element (and, for enum/interface, the member index) it was handed,
together with the `Transform` that collects the diagnostics.
-/

set_option autoImplicit false

namespace WebidlBind

/-! ## The `types` package (element graph) -/

namespace types

/-- Modelled from the spec: the top-level name of a schema element (owning
package, original schema name `Idl`, output name `Def`); package `types` is not
part of the sources at hand. -/
structure TypeName where
  Package : String
  Idl : String
  Def : String
deriving DecidableEq, Repr

/-- Modelled from the spec: the mutable name record of a member (original name
`Idl`, output name `Def`); `rename` writes its `Def` field. -/
structure MethodName where
  Idl : String
  Def : String
deriving DecidableEq, Repr

/-- Modelled from the spec: what the type-info service (`DefaultParam`) returns
for a type; the templates read `Idl`, `Def` and `InOut`. -/
structure TypeInfo where
  Idl : String
  Def : String
  InOut : String
deriving DecidableEq, Repr

/-- Modelled from the spec: a type reference. The spec singles out the void
type (no return conversion, no named result in the declared signature); every
other type is represented by the answer of the type-info service. -/
inductive TypeRef where
  | void
  | named (info : TypeInfo)
deriving DecidableEq, Repr

/-- Modelled from the spec: `types.IsVoid`. -/
def IsVoid : TypeRef → Bool
  | .void => true
  | .named _ => false

/-- Modelled from the spec: `TypeRef.DefaultParam` (first component). For the
void type the declared signature carries no result type, so `InOut` is empty. -/
def TypeRef.DefaultParam : TypeRef → TypeInfo
  | .void => { Idl := "void", Def := "", InOut := "" }
  | .named info => info

/-- Modelled from the spec: one parameter of a callback or method signature; a
variadic parameter, if present, is the final one. -/
structure Parameter where
  Name : String
  Type_ : TypeRef
  Optional : Bool
  Variadic : Bool
deriving DecidableEq, Repr

/-- Modelled from the spec: a callback element (name, in-use flag, signature).
A callback has no renameable members. -/
structure Callback where
  name : TypeName
  inUse : Bool
  Parameters : List Parameter
  Return : TypeRef
deriving DecidableEq, Repr

/-- Modelled from the spec: a dictionary element. It has no member reachable
through a rename index. -/
structure Dictionary where
  name : TypeName
  inUse : Bool
deriving DecidableEq, Repr

/-- Modelled from the spec: an enum element. `members` is the arena of the
mutable name records owned by the element's members. -/
structure Enum where
  name : TypeName
  inUse : Bool
  members : List MethodName
deriving DecidableEq, Repr

/-- Modelled from the spec: an interface element, with the arena of the name
records of its constants, attributes and methods. -/
structure Interface where
  name : TypeName
  inUse : Bool
  members : List MethodName
deriving DecidableEq, Repr

/-- Modelled from the spec: a value of the Go interface `types.Type`, a schema
element of one of the four kinds. -/
inductive Element where
  | enum (e : Enum)
  | callback (c : Callback)
  | dictionary (d : Dictionary)
  | interface (v : Interface)
deriving DecidableEq, Repr

/-- Modelled from the spec: `Basic().Package`, the package that owns the
element. -/
def Element.Package : Element → String
  | .enum e => e.name.Package
  | .callback c => c.name.Package
  | .dictionary d => d.name.Package
  | .interface v => v.name.Package

/-- Modelled from the spec: `types.Convert`, the schema store handed to the
emitter, with its elements in the order the loops of `WriteSource` visit them. -/
structure Convert where
  Enums : List Enum
  Callbacks : List Callback
  Dictionary : List Dictionary
  Interface : List Interface
deriving DecidableEq, Repr

end types

/-! ## `transform/actions.go` -/

namespace transform

open types

/-- Modelled from the spec: a source reference of a rule (`ref` is declared
outside the sources at hand). -/
structure ref where
  Filename : String
  Line : Nat
deriving DecidableEq, Repr

/-- Modelled from the spec: a structured diagnostic, source reference plus
message. -/
structure Diagnostic where
  Ref : ref
  Message : String
deriving DecidableEq, Repr

/-- Modelled from the spec: the part of `Transform` the actions touch, the
diagnostics accumulated so far, oldest first. -/
structure Transform where
  errors : List Diagnostic
deriving DecidableEq, Repr

/-- Modelled from the spec: `Transform.messageError` reports one diagnostic at
`r`; it is appended after the ones already present. The caller passes the
message already formatted. -/
def Transform.messageError (trans : Transform) (r : ref) (msg : String) : Transform :=
  { trans with errors := trans.errors ++ [{ Ref := r, Message := msg }] }

/-- Modelled from the spec: the per-kind key->setter tables and the lists of
valid keys (`callbackProperties`, `callbackPropertyNames`, ...), declared
outside the sources at hand. A Go map lookup `f, ok := m[k]` is `m k`. -/
structure PropertyTables where
  callbackProperties : String → Option (Callback → String → Callback)
  callbackPropertyNames : List String
  dictionaryProperties : String → Option (Dictionary → String → Dictionary)
  dictionaryPropertyNames : List String
  enumProperties : String → Option (Enum → String → Enum)
  enumPropertyNames : List String
  interfaceProperties : String → Option (Interface → String → Interface)
  interfacePropertyNames : List String
  globalProperties : String → Option Bool

/-- The member index `map[string]renameTarget`: a member name is mapped to the
position, in the element's arena, of the name record `target.Name()` points to. -/
abbrev Targets := String → Option Nat

/-- Scope of a pattern selector (`matchType`). -/
inductive matchType where
  | interface
  | callback
  | dictionary
  | enum
deriving DecidableEq, Repr

/-- The implementations of the `action` interface: `property`, `rename` and
`globalRegExp` (whose `What` is again an action). The regular expression is
kept as its pattern text. -/
inductive Action where
  | property (Name Value : String) (Ref : ref)
  | rename (Name Value : String) (Ref : ref)
  | globalRegExp (Match : String) (Type_ : matchType) (What : Action) (Ref : ref)
deriving Repr

/-- What an enum or interface handler leaves behind: the element, the member
index and the transform. -/
structure Outcome (α : Type) where
  instance_ : α
  targets : Targets
  trans : Transform

/-- The message `"unknown property '%s', valid are: %s"` formatted with the
key and `strings.Join(names, ", ")`. -/
def unknownPropertyMessage (name : String) (names : List String) : String :=
  "unknown property \x27" ++ name ++ "\x27, valid are: " ++ String.intercalate ", " names

/-- The message `"unknown rename target '%s'"` formatted with the name. -/
def unknownRenameMessage (name : String) : String :=
  "unknown rename target \x27" ++ name ++ "\x27"

/-- The assignment `target.Name().Def = value` on the record at position `i`. -/
def assignDef (value : String) : Nat → List MethodName → List MethodName
  | _, [] => []
  | 0, m :: ms => { m with Def := value } :: ms
  | i + 1, m :: ms => m :: assignDef value i ms

/-- Embedding of `genericRename`. -/
def genericRename (name value : String) (r : ref) (targets : Targets)
    (arena : List MethodName) (tr : Transform) : Targets × List MethodName × Transform :=
  match targets name with
  | some i => (targets, assignDef value i arena, tr)
  | none => (targets, arena, tr.messageError r (unknownRenameMessage name))

/-- Embedding of `ExecuteCallback` for `property`, `rename` and `globalRegExp`. -/
def Action.ExecuteCallback (P : PropertyTables) : Action → Callback → Transform → Callback × Transform
  | .property Name Value Ref, instance_, tr =>
    match P.callbackProperties Name with
    | some f => (f instance_ Value, tr)
    | none => (instance_, tr.messageError Ref (unknownPropertyMessage Name P.callbackPropertyNames))
  | .rename _ _ Ref, instance_, tr =>
    (instance_, tr.messageError Ref
      "callback doesn\x27t have any attributes or methods that can be renamed")
  | .globalRegExp _ _ What _, instance_, tr => What.ExecuteCallback P instance_ tr

/-- Embedding of `ExecuteDictionary` for `property`, `rename` and `globalRegExp`. -/
def Action.ExecuteDictionary (P : PropertyTables) :
    Action → Dictionary → Transform → Dictionary × Transform
  | .property Name Value Ref, instance_, tr =>
    match P.dictionaryProperties Name with
    | some f => (f instance_ Value, tr)
    | none => (instance_, tr.messageError Ref (unknownPropertyMessage Name P.dictionaryPropertyNames))
  | .rename _ _ Ref, value, tr =>
    (value, tr.messageError Ref
      "dictionary doesn\x27t have any attributes or methods that can be renamed")
  | .globalRegExp _ _ What _, value, tr => What.ExecuteDictionary P value tr

/-- Embedding of `ExecuteEnum` for `property`, `rename` and `globalRegExp`. -/
def Action.ExecuteEnum (P : PropertyTables) :
    Action → Enum → Targets → Transform → Outcome Enum
  | .property Name Value Ref, instance_, targets, tr =>
    match P.enumProperties Name with
    | some f => ⟨f instance_ Value, targets, tr⟩
    | none => ⟨instance_, targets,
        tr.messageError Ref (unknownPropertyMessage Name P.enumPropertyNames)⟩
  | .rename Name Value Ref, value, targets, tr =>
    let res := genericRename Name Value Ref targets value.members tr
    ⟨{ value with members := res.2.1 }, res.1, res.2.2⟩
  | .globalRegExp _ _ What _, value, targets, tr => What.ExecuteEnum P value targets tr

/-- Embedding of `ExecuteInterface` for `property`, `rename` and `globalRegExp`. -/
def Action.ExecuteInterface (P : PropertyTables) :
    Action → Interface → Targets → Transform → Outcome Interface
  | .property Name Value Ref, value, targets, tr =>
    match P.interfaceProperties Name with
    | some f => ⟨f value Value, targets, tr⟩
    | none => ⟨value, targets,
        tr.messageError Ref (unknownPropertyMessage Name P.interfacePropertyNames)⟩
  | .rename Name Value Ref, value, targets, tr =>
    let res := genericRename Name Value Ref targets value.members tr
    ⟨{ value with members := res.2.1 }, res.1, res.2.2⟩
  | .globalRegExp _ _ What _, value, targets, tr => What.ExecuteInterface P value targets tr

/-- Embedding of `IsGlobal`. -/
def Action.IsGlobal (P : PropertyTables) : Action → Bool
  | .property Name _ _ =>
    match P.globalProperties Name with
    | some value => value
    | none => false
  | .rename _ _ _ => false
  | .globalRegExp _ _ _ _ => true

/-- Embedding of `Reference`. -/
def Action.Reference : Action → ref
  | .property _ _ Ref => Ref
  | .rename _ _ Ref => Ref
  | .globalRegExp _ _ _ Ref => Ref

/-- The action a chain of `globalRegExp` wrappers ends in. -/
def Action.core : Action → Action
  | .globalRegExp _ _ What _ => What.core
  | a => a

/-- An action that reports an error when executed on a callback: an unknown
property key, or any rename. -/
def Action.failsOnCallback (P : PropertyTables) : Action → Bool
  | .property Name _ _ => (P.callbackProperties Name).isNone
  | .rename _ _ _ => true
  | .globalRegExp _ _ What _ => What.failsOnCallback P

/-- An action that reports an error when executed on a dictionary. -/
def Action.failsOnDictionary (P : PropertyTables) : Action → Bool
  | .property Name _ _ => (P.dictionaryProperties Name).isNone
  | .rename _ _ _ => true
  | .globalRegExp _ _ What _ => What.failsOnDictionary P

/-- An action that reports an error when executed on an enum with the member
index `targets`: an unknown property key or an unknown rename target. -/
def Action.failsOnEnum (P : PropertyTables) (targets : Targets) : Action → Bool
  | .property Name _ _ => (P.enumProperties Name).isNone
  | .rename Name _ _ => (targets Name).isNone
  | .globalRegExp _ _ What _ => What.failsOnEnum P targets

/-- An action that reports an error when executed on an interface. -/
def Action.failsOnInterface (P : PropertyTables) (targets : Targets) : Action → Bool
  | .property Name _ _ => (P.interfaceProperties Name).isNone
  | .rename Name _ _ => (targets Name).isNone
  | .globalRegExp _ _ What _ => What.failsOnInterface P targets

/-- Modelled from the spec: the actions of the rules resolved to one callback
are executed on it in list order (the loop that does so is outside the sources
at hand). -/
def executeAllCallback (P : PropertyTables) : List Action → Callback → Transform → Callback × Transform
  | [], c, tr => (c, tr)
  | a :: rest, c, tr =>
    let r := a.ExecuteCallback P c tr
    executeAllCallback P rest r.1 r.2

/-- Modelled from the spec: in-order execution of a list of actions on one
dictionary. -/
def executeAllDictionary (P : PropertyTables) :
    List Action → Dictionary → Transform → Dictionary × Transform
  | [], d, tr => (d, tr)
  | a :: rest, d, tr =>
    let r := a.ExecuteDictionary P d tr
    executeAllDictionary P rest r.1 r.2

/-- Modelled from the spec: in-order execution of a list of actions on one
enum, with the member index built before the first action. -/
def executeAllEnum (P : PropertyTables) : List Action → Enum → Targets → Transform → Outcome Enum
  | [], e, targets, tr => ⟨e, targets, tr⟩
  | a :: rest, e, targets, tr =>
    let r := a.ExecuteEnum P e targets tr
    executeAllEnum P rest r.instance_ r.targets r.trans

/-- Modelled from the spec: in-order execution of a list of actions on one
interface, with the member index built before the first action. -/
def executeAllInterface (P : PropertyTables) :
    List Action → Interface → Targets → Transform → Outcome Interface
  | [], v, targets, tr => ⟨v, targets, tr⟩
  | a :: rest, v, targets, tr =>
    let r := a.ExecuteInterface P v targets tr
    executeAllInterface P rest r.instance_ r.targets r.trans

/-- The mutation an action makes on a callback: a property action whose key
has a setter applies that setter to the element and the value; every other
action leaves the callback as it is. -/
def Action.onCallback (P : PropertyTables) : Action → Callback → Callback
  | .property Name Value _, c =>
    match P.callbackProperties Name with
    | some f => f c Value
    | none => c
  | .rename _ _ _, c => c
  | .globalRegExp _ _ What _, c => What.onCallback P c

/-- The mutation an action makes on a dictionary. -/
def Action.onDictionary (P : PropertyTables) : Action → Dictionary → Dictionary
  | .property Name Value _, d =>
    match P.dictionaryProperties Name with
    | some f => f d Value
    | none => d
  | .rename _ _ _, d => d
  | .globalRegExp _ _ What _, d => What.onDictionary P d

/-- The mutation an action makes on an enum with the member index `targets`: the
setter of a known property key, or the assignment of the new output name to the
record a known rename target points to. -/
def Action.onEnum (P : PropertyTables) (targets : Targets) : Action → Enum → Enum
  | .property Name Value _, e =>
    match P.enumProperties Name with
    | some f => f e Value
    | none => e
  | .rename Name Value _, e =>
    match targets Name with
    | some i => { e with members := assignDef Value i e.members }
    | none => e
  | .globalRegExp _ _ What _, e => What.onEnum P targets e

/-- The mutation an action makes on an interface with the member index
`targets`. -/
def Action.onInterface (P : PropertyTables) (targets : Targets) : Action → Interface → Interface
  | .property Name Value _, v =>
    match P.interfaceProperties Name with
    | some f => f v Value
    | none => v
  | .rename Name Value _, v =>
    match targets Name with
    | some i => { v with members := assignDef Value i v.members }
    | none => v
  | .globalRegExp _ _ What _, v => What.onInterface P targets v

/-- In-order run of a list of actions with a per-action step on an element. -/
def runSteps {σ : Type} (step : Action → σ → Transform → σ × Transform) :
    List Action → σ → Transform → σ × Transform
  | [], s, tr => (s, tr)
  | a :: rest, s, tr => runSteps step rest (step a s tr).1 (step a s tr).2

/-! ### Sample data -/

/-- Sample tables: every kind knows the key `package`, which sets the owning
package of the element. -/
def sampleTables : PropertyTables where
  callbackProperties := fun k =>
    if k = "package" then some (fun c v => { c with name := { c.name with Package := v } }) else none
  callbackPropertyNames := ["package"]
  dictionaryProperties := fun k =>
    if k = "package" then some (fun c v => { c with name := { c.name with Package := v } }) else none
  dictionaryPropertyNames := ["package"]
  enumProperties := fun k =>
    if k = "package" then some (fun c v => { c with name := { c.name with Package := v } }) else none
  enumPropertyNames := ["package"]
  interfaceProperties := fun k =>
    if k = "package" then some (fun c v => { c with name := { c.name with Package := v } }) else none
  interfacePropertyNames := ["package"]
  globalProperties := fun k => if k = "package" then some true else none

/-- Sample source reference. -/
def sampleRef : ref := { Filename := "dom.go.md", Line := 7 }

/-- Sample callback `EventHandler(event) -> void`. -/
def sampleCallback : Callback :=
  { name := { Package := "dom", Idl := "EventHandler", Def := "EventHandler" }
    inUse := true
    Parameters := [{ Name := "event", Type_ := .named ⟨"Event", "Event", "*Event"⟩,
                     Optional := false, Variadic := false }]
    Return := .void }

/-- Sample dictionary. -/
def sampleDictionary : Dictionary :=
  { name := { Package := "dom", Idl := "EventInit", Def := "EventInit" }, inUse := true }

/-- Sample enum with the two members `open` and `closed`. -/
def sampleEnum : Enum :=
  { name := { Package := "dom", Idl := "ShadowRootMode", Def := "ShadowRootMode" }
    inUse := true
    members := [⟨"open", "Open"⟩, ⟨"closed", "Closed"⟩] }

/-- Sample interface with the two members `appendChild` and `nodeType`. -/
def sampleInterface : Interface :=
  { name := { Package := "dom", Idl := "Node", Def := "Node" }
    inUse := true
    members := [⟨"appendChild", "AppendChild"⟩, ⟨"nodeType", "NodeType"⟩] }

/-- Member index of `sampleEnum`, keyed by the members' schema names. -/
def sampleEnumTargets : Targets := fun k =>
  if k = "open" then some 0 else if k = "closed" then some 1 else none

/-- Member index of `sampleInterface`, keyed by the members' schema names. -/
def sampleInterfaceTargets : Targets := fun k =>
  if k = "appendChild" then some 0 else if k = "nodeType" then some 1 else none

end transform

/-! ## `gowasm/gowasm.go`: blank-line normalisation -/

namespace gowasm

open types

/-- The bytes of an ASCII Go string literal. -/
def ascii (s : String) : List Nat := s.toList.map Char.toNat

/-- The slice `add` of `sourceCodeRemoveEmptyLines`: the prefixes of the lines
that get a blank line in front of them. -/
def add : List (List Nat) :=
  [ascii "//", ascii "func", ascii "type", ascii "const", ascii "var"]

/-- Go's `strings.HasPrefix(s, p)` on byte strings. -/
def HasPrefix (s p : List Nat) : Bool := p.isPrefixOf s

/-- Go's `bytes.Buffer.ReadString(delim)`: the bytes up to and including the
first `delim`, the bytes left in the buffer, and whether the error is `io.EOF`
(the delimiter was not found; the bytes read so far are still returned). -/
def ReadString (delim : Nat) : List Nat → List Nat × List Nat × Bool
  | [] => ([], [], true)
  | b :: bs =>
    if b = delim then ([b], bs, false)
    else
      let r := ReadString delim bs
      (b :: r.1, r.2.1, r.2.2)

/-- The UTF-8 encodings of the runes for which Go's `unicode.IsSpace` holds:
tab, LF, VT, FF, CR, space, U+0085, U+00A0, U+1680, U+2000..U+200A, U+2028,
U+2029, U+202F, U+205F, U+3000. -/
def spaceRunes : List (List Nat) :=
  [[9], [10], [11], [12], [13], [32], [0xC2, 0x85], [0xC2, 0xA0], [0xE1, 0x9A, 0x80],
   [0xE2, 0x80, 0x80], [0xE2, 0x80, 0x81], [0xE2, 0x80, 0x82], [0xE2, 0x80, 0x83],
   [0xE2, 0x80, 0x84], [0xE2, 0x80, 0x85], [0xE2, 0x80, 0x86], [0xE2, 0x80, 0x87],
   [0xE2, 0x80, 0x88], [0xE2, 0x80, 0x89], [0xE2, 0x80, 0x8A], [0xE2, 0x80, 0xA8],
   [0xE2, 0x80, 0xA9], [0xE2, 0x80, 0xAF], [0xE2, 0x81, 0x9F], [0xE3, 0x80, 0x80]]

/-- Scan of a byte string for white space runes only; the first argument is the
number of bytes still to skip of a rune already recognised. -/
def onlySpaceFrom : Nat → List Nat → Bool
  | _, [] => true
  | n + 1, _ :: r => onlySpaceFrom n r
  | 0, b :: r =>
    match spaceRunes.find? (fun e => e.isPrefixOf (b :: r)) with
    | some e => onlySpaceFrom (e.length - 1) r
    | none => false

/-- The test `len(strings.TrimSpace(s)) == 0`: trimming leaves nothing exactly
when `s` is a sequence of encoded white space runes (a byte that starts no such
rune, an invalid one included, survives trimming). -/
def trimsToEmpty (s : List Nat) : Bool := onlySpaceFrom 0 s

/-- The `for _, prefix := range add` loop on the line `s`, over the state
`(found, out, ignore)`. -/
def rangeAdd (s : List Nat) : List (List Nat) → Bool × List Nat × Bool → Bool × List Nat × Bool
  | [], st => st
  | p :: ps, (found, out, ignore) =>
    if HasPrefix s p then
      rangeAdd s ps (true, if !ignore then out ++ [10] else out, true)
    else
      rangeAdd s ps (found, out, ignore)

/-- The `for` loop of `sourceCodeRemoveEmptyLines` over the state
`(in, out, ignore)`; every iteration that does not leave the loop consumes a
line, and `fuel` bounds the number of iterations. `none` stands for a loop that
is still running when the fuel is used up. -/
def removeLoop : Nat → List Nat → List Nat → Bool → Option (List Nat)
  | 0, _, _, _ => none
  | fuel + 1, inp, out, ignore =>
    let r := ReadString 10 inp
    if r.2.2 then some out
    else if trimsToEmpty r.1 then removeLoop fuel r.2.1 out ignore
    else
      let st := rangeAdd r.1 add (false, out, ignore)
      let ignore := if !st.1 then false else st.2.2
      removeLoop fuel r.2.1 (st.2.1 ++ r.1) ignore

/-- Embedding of `sourceCodeRemoveEmptyLines`; the loop is given one iteration
per byte of `code` plus one. -/
def sourceCodeRemoveEmptyLines (code : List Nat) : Option (List Nat) :=
  removeLoop (code.length + 1) code [] false

/-! ### Lines of a buffer -/

/-- A declaration line: a line that starts with one of the prefixes of `add`. -/
def isDeclLine (s : List Nat) : Bool := add.any (fun p => HasPrefix s p)

/-- A newline-terminated line: bytes without a newline, followed by one. -/
def IsLine (s : List Nat) : Prop := ∃ t : List Nat, s = t ++ [10] ∧ 10 ∉ t

/-- The newline-terminated lines of a buffer, each with its newline, and the
bytes after the last newline. -/
def splitLines : List Nat → List (List Nat) × List Nat
  | [] => ([], [])
  | b :: bs =>
    let r := splitLines bs
    if b = 10 then ([10] :: r.1, r.2)
    else
      match r.1 with
      | [] => ([], b :: r.2)
      | l :: ls => ((b :: l) :: ls, r.2)

/-- The newline-terminated lines of a buffer. -/
def linesOf (b : List Nat) : List (List Nat) := (splitLines b).1

/-- The lines the loop of `sourceCodeRemoveEmptyLines` writes for the
newline-terminated lines `ls` when it starts with the flag `ignore`: blank lines
are dropped, and a declaration line gets an empty line in front of it unless
the flag is set. -/
def emitLines : Bool → List (List Nat) → List (List Nat)
  | _, [] => []
  | ignore, s :: ls =>
    if trimsToEmpty s then emitLines ignore ls
    else if isDeclLine s then (if ignore then [s] else [[10], s]) ++ emitLines true ls
    else s :: emitLines false ls

/-- How a line `y` of the normalised output relates to the line `x` right before
it: a blank `x` is an empty line and `y` is then a declaration line that is not
blank; a declaration line `y` comes after an empty line or after another
declaration line; and a blank `y` comes after a line that is neither blank nor
a declaration line. -/
def Follows (x y : List Nat) : Prop :=
  (trimsToEmpty x = true → x = [10] ∧ isDeclLine y = true ∧ trimsToEmpty y = false) ∧
  (isDeclLine y = true → x = [10] ∨ isDeclLine x = true) ∧
  (trimsToEmpty y = true → trimsToEmpty x = false ∧ isDeclLine x = false)

/-! ## `gowasm/callback.go`: the callback writer -/

/-- The fields of `callbackData` that `callbackTmplInput` reads. -/
inductive Field where
  | TypeIdl
  | TypeDef
  | ParamLine
  | ReturnInOut
  | InOutAllOut
  | ArgVar
deriving DecidableEq, Repr

/-- The conditions of the `{{if}}` actions of `callbackTmplInput`:
`len .Return.InOut` and `not .VoidRet`. -/
inductive Cond where
  | lenReturnInOut
  | notVoidRet
deriving DecidableEq, Repr

/-- A node of a parsed template body: literal text, the value of a field, or an
`{{if c}}text{{end}}` action (the bodies of all `{{if}}` actions of
`callbackTmplInput` are literal text). -/
inductive Node where
  | text (s : String)
  | field (f : Field)
  | when (c : Cond) (body : String)
deriving DecidableEq, Repr

/-- A piece of emitted text together with where it comes from: template text
outside any action, the value of a field, the body of an `{{if}}` action whose
condition held, or text written by one of the in/out conversion writers. -/
inductive Piece where
  | lit (s : String)
  | subst (f : Field) (s : String)
  | opt (c : Cond) (s : String)
  | written (s : String)
deriving DecidableEq, Repr

/-- The bytes a piece contributes to the destination. -/
def Piece.str : Piece → String
  | .lit s => s
  | .subst _ s => s
  | .opt _ s => s
  | .written s => s

/-- The text of a sequence of pieces. -/
def piecesText (ps : List Piece) : String := String.join (ps.map Piece.str)

/-- Body of `{{define "start"}}`. -/
def startTmpl : List Node :=
  [.text "\n// callback: ", .field .TypeIdl,
   .text "\ntype ", .field .TypeDef, .text " func (", .field .ParamLine, .text ") ",
   .field .ReturnInOut,
   .text "\n\nfunc ", .field .TypeDef, .text "ToJS(callback ", .field .TypeDef,
   .text " ) *js.Callback \x7b\n\tif callback == nil \x7b\n\t\treturn nil\n\t\x7d\n\tret := js.NewCallback(func (args []js.Value) \x7b\n"]

/-- Body of `{{define "middle"}}`. -/
def middleTmpl : List Node :=
  [.text "\n\t\t// TODO: return value\n\t\tcallback(", .field .InOutAllOut,
   .text ")\n\t\x7d)\n\treturn &ret\n\x7d\n\nfunc ", .field .TypeDef,
   .text "FromJS(_value js.Value) ", .field .TypeDef,
   .text " \x7b\n\treturn func( ", .field .ParamLine, .text " ) ( ",
   .when .lenReturnInOut "_result", .text " ", .field .ReturnInOut,
   .text " ) \x7b\n\t\tvar (\n\t\t\t_args ", .field .ArgVar,
   .text " \n\t\t\t_end int \n\t\t)\n"]

/-- Body of `{{define "invoke"}}`. -/
def invokeTmpl : List Node :=
  [.text "\n\t\t", .when .notVoidRet "_returned := ",
   .text " _value.Invoke(_args[0:_end]...)\n"]

/-- Body of `{{define "end"}}`. -/
def endTmpl : List Node :=
  [.text "\n\t\t", .when .notVoidRet "_result = _converted",
   .text "\n\t\treturn\n\t\x7d\n\x7d\n"]

/-- Modelled from the spec: the marshalling planner and the in/out conversion
writers of package `gowasm` that `writeCallback` calls but that are declared
outside the sources at hand (`inoutData`, `setupInOutWasmData`,
`setupInOutWasmForType`, `calculateMethodArgsSize`, `parameterArgumentLine`,
`writeInOutFromWasm`, `writeInOutToWasm`), and `Callback.DefaultParam` of the
type-info service. A writer yields the text it wrote to the destination and the
error it returned, if any. -/
structure Helpers where
  inoutData : Type
  AllOut : inoutData → String
  setupInOutWasmData : List Parameter → String → String → inoutData
  setupInOutWasmForType : TypeRef → String → String → String → inoutData
  calculateMethodArgsSize : inoutData → String
  parameterArgumentLine : List Parameter → String × List String
  writeInOutFromWasm : inoutData → String → String × Option String
  writeInOutToWasm : inoutData → String → String × Option String
  callbackDefaultParam : Callback → TypeInfo

/-- Embedding of `callbackData`. -/
structure callbackData (H : Helpers) where
  Type_ : TypeInfo
  Return : TypeInfo
  VoidRet : Bool
  Params : List String
  ParamLine : String
  InOut : H.inoutData
  ArgVar : String

/-- Value of a field of the template data. -/
def callbackData.field {H : Helpers} (data : callbackData H) : Field → String
  | .TypeIdl => data.Type_.Idl
  | .TypeDef => data.Type_.Def
  | .ParamLine => data.ParamLine
  | .ReturnInOut => data.Return.InOut
  | .InOutAllOut => H.AllOut data.InOut
  | .ArgVar => data.ArgVar

/-- Truth of an `{{if}}` condition: `len .Return.InOut` is true when the length
is not zero. -/
def callbackData.holds {H : Helpers} (data : callbackData H) : Cond → Bool
  | .lenReturnInOut => data.Return.InOut.length != 0
  | .notVoidRet => !data.VoidRet

/-- The pieces `ExecuteTemplate` writes for a template body. -/
def execute {H : Helpers} (data : callbackData H) : List Node → List Piece
  | [] => []
  | .text s :: ns => .lit s :: execute data ns
  | .field f :: ns => .subst f (data.field f) :: execute data ns
  | .when c body :: ns =>
    if data.holds c then .opt c body :: execute data ns else execute data ns

/-- The stages of `writeCallback`, in the order of its statements. -/
inductive Stage where
  | start
  | decode
  | middle
  | pack
  | invoke
  | unpack
  | end_
deriving DecidableEq, Repr

/-- What one stage wrote to the destination. -/
structure Chunk where
  stage : Stage
  pieces : List Piece
deriving DecidableEq, Repr

/-- Result of `writeCallback`: the chunks written to `dst`, in order, and the
returned error (`none` is `nil`). -/
structure Emitted where
  chunks : List Chunk
  err : Option String
deriving DecidableEq, Repr

/-- The text appended to `dst`. -/
def Emitted.text (e : Emitted) : String :=
  String.join (e.chunks.map (fun c => piecesText c.pieces))

/-- The `callbackData` value `writeCallback` builds for a callback. -/
def setupCallbackData (H : Helpers) (cb : Callback) : callbackData H :=
  let inout := H.setupInOutWasmData cb.Parameters "args[%d@variadicSlice@]" "_p%d"
  let line := H.parameterArgumentLine cb.Parameters
  { InOut := inout
    VoidRet := IsVoid cb.Return
    ArgVar := H.calculateMethodArgsSize inout
    Return := cb.Return.DefaultParam
    Type_ := H.callbackDefaultParam cb
    ParamLine := line.1
    Params := line.2 }

/-- Embedding of `writeCallback`. Executing a template on the data built here
does not fail; each writer call may, and then the function returns at once with
what has been written so far. -/
def writeCallback (H : Helpers) (cb : Callback) : Emitted :=
  let data := setupCallbackData H cb
  let c1 : Chunk := ⟨.start, execute data startTmpl⟩
  let w2 := H.writeInOutFromWasm data.InOut ""
  let c2 : Chunk := ⟨.decode, [.written w2.1]⟩
  match w2.2 with
  | some err => ⟨[c1, c2], some err⟩
  | none =>
    let c3 : Chunk := ⟨.middle, execute data middleTmpl⟩
    let fromjs := H.setupInOutWasmData cb.Parameters "@name@" "_p%d"
    let assign := "_args[%d] = _p%d; _end++"
    let w4 := H.writeInOutToWasm fromjs assign
    let c4 : Chunk := ⟨.pack, [.written w4.1]⟩
    match w4.2 with
    | some err => ⟨[c1, c2, c3, c4], some err⟩
    | none =>
      let c5 : Chunk := ⟨.invoke, execute data invokeTmpl⟩
      let c7 : Chunk := ⟨.end_, execute data endTmpl⟩
      if !data.VoidRet then
        let result := H.setupInOutWasmForType cb.Return "" "_returned" "_converted"
        let w6 := H.writeInOutFromWasm result ""
        let c6 : Chunk := ⟨.unpack, [.written w6.1]⟩
        match w6.2 with
        | some err => ⟨[c1, c2, c3, c4, c5, c6], some err⟩
        | none => ⟨[c1, c2, c3, c4, c5, c6, c7], none⟩
      else
        ⟨[c1, c2, c3, c4, c5, c7], none⟩

/-- The text of a template body rendered on the data of a callback. -/
def render (H : Helpers) (cb : Callback) (tmpl : List Node) : String :=
  piecesText (execute (setupCallbackData H cb) tmpl)

/-- The parameter decoding statements: what `writeInOutFromWasm(data.InOut, "", dst)`
writes. -/
def decodeText (H : Helpers) (cb : Callback) : String :=
  (H.writeInOutFromWasm (setupCallbackData H cb).InOut "").1

/-- The host-argument packing statements: what `writeInOutToWasm(fromjs, assign, dst)`
writes. -/
def packText (H : Helpers) (cb : Callback) : String :=
  (H.writeInOutToWasm (H.setupInOutWasmData cb.Parameters "@name@" "_p%d")
    "_args[%d] = _p%d; _end++").1

/-- The result decoding statements: what `writeInOutFromWasm(result, "", dst)`
writes. -/
def unpackText (H : Helpers) (cb : Callback) : String :=
  (H.writeInOutFromWasm (H.setupInOutWasmForType cb.Return "" "_returned" "_converted") "").1

/-! ## `gowasm/gowasm.go`: `WriteSource` -/

/-- The UTF-8 bytes of a Go string. -/
def utf8 (s : String) : List Nat :=
  s.toList.flatMap (fun c => (String.utf8EncodeChar c).map UInt8.toNat)

/-- Body of `{{define "header"}}` of `fileTemplInput`, executed on
`fileData{Package: pkg}`. -/
def headerText (pkg : String) : String :=
  "\npackage " ++ pkg ++
  "\n\nimport \x22syscall/js\x22\n\n// ReleasableApiResource is used to release underlaying\n// allocated resources.\ntype ReleasableApiResource interface \x7b\n\tRelease()\n\x7d\n\ntype releasableApiResourceList []ReleasableApiResource\n\nfunc (a releasableApiResourceList) Release() \x7b\n\tfor _, v := range a \x7b\n\t\tv.Release()\n\t\x7d\n\x7d\n\n"

/-- The map `target` from package name to buffer, `map[string]*bytes.Buffer`:
the entries with the contents of their buffers, keys pairwise different. -/
abbrev Buffers := List (String × List Nat)

/-- The lookup `target[pkg]`. -/
def lookupBuffer : Buffers → String → Option (List Nat)
  | [], _ => none
  | (k, v) :: rest, pkg => if k = pkg then some v else lookupBuffer rest pkg

/-- A write of `text` to the buffer `target[pkg]`. -/
def writeBuffer : Buffers → String → List Nat → Buffers
  | [], _, _ => []
  | (k, v) :: rest, pkg, text =>
    if k = pkg then (k, v ++ text) :: rest else (k, v) :: writeBuffer rest pkg text

/-- The type `writeFn`. A writer yields the bytes it wrote to the destination
and the error it returned (`none` is `nil`). -/
abbrev writeFn := Element → List Nat × Option String

/-- The state the loops of `WriteSource` thread through `writeType`: the map
`target`, the variable `err`, and, as a record of what happened, the values
handed to a writer so far. -/
structure Run where
  target : Buffers
  err : Option String
  calls : List Element
deriving DecidableEq, Repr

/-- Embedding of `getTarget`: the map after the call and the returned error;
the returned buffer is the one at `value.Basic().Package`. Executing the
`header` template into a fresh `bytes.Buffer` does not fail. -/
def getTarget (value : Element) (target : Buffers) : Buffers × Option String :=
  let pkg := value.Package
  match lookupBuffer target pkg with
  | some _ => (target, none)
  | none => (target ++ [(pkg, utf8 (headerText pkg))], none)

/-- Embedding of `writeType`. -/
def writeType (value : Element) (conv : writeFn) (st : Run) : Run :=
  match st.err with
  | some e => { st with err := some e }
  | none =>
    let r := getTarget value st.target
    match r.2 with
    | some e => { st with target := r.1, err := some e }
    | none =>
      let w := conv value
      { target := writeBuffer r.1 value.Package w.1
        err := w.2
        calls := st.calls ++ [value] }

/-- The writer `writeCallback` as the callback loop of `WriteSource` hands it to
`writeType` together with the callback `cb`: `writeType` calls the writer on
that same value, on which the type assertion `value.(*types.Callback)` gives
`cb`. The assertion is made on no other value, so its failure, a panic and not
a returned error, has no counterpart here. -/
def writeCallbackFn (H : Helpers) (cb : Callback) : writeFn :=
  fun _ => (utf8 (writeCallback H cb).text, (writeCallback H cb).err)

/-- Modelled from the spec: the writers of the three other kinds (`writeEnum`,
`writeDictionary`, `writeInterface`), which are declared outside the sources at
hand, next to the helpers of `writeCallback`; and the two library functions
`WriteSource` calls, `format.Source` (`none` is an error) and
`strings.ToLower`. -/
structure Backend where
  helpers : Helpers
  writeEnum : writeFn
  writeDictionary : writeFn
  writeInterface : writeFn
  formatSource : List Nat → Option (List Nat)
  ToLower : String → String

/-- The returned map `map[string][]byte`. -/
abbrev Files := String → Option (List Nat)

/-- The key `fmt.Sprintf("%s/%s.go", low, low)` for the package `k`. -/
def fileName (B : Backend) (k : String) : String :=
  let low := B.ToLower k
  low ++ "/" ++ low ++ ".go"

/-- The content stored for a buffer with the bytes `v`: the normalised text,
replaced by the formatted source when `format.Source` accepts it. The loop of
`sourceCodeRemoveEmptyLines` ends on every buffer, so the default is not used. -/
def fileContent (B : Backend) (v : List Nat) : List Nat :=
  let content := (sourceCodeRemoveEmptyLines v).getD []
  match B.formatSource content with
  | some source => source
  | none => content

/-- The loop `for k, v := range target` over the entries in the order they are
visited: `ret[filename] = content`. -/
def rangeTarget (B : Backend) : List (String × List Nat) → Files → Files
  | [], ret => ret
  | (k, v) :: rest, ret =>
    rangeTarget B rest (fun x => if x = fileName B k then some (fileContent B v) else ret x)

/-- The first four loops of `WriteSource`. -/
def writeAll (B : Backend) (conv : Convert) : Run :=
  let st0 : Run := { target := [], err := none, calls := [] }
  let st1 := conv.Enums.foldl
    (fun st e => if e.inUse then writeType (.enum e) B.writeEnum st else st) st0
  let st2 := conv.Callbacks.foldl
    (fun st v => writeType (.callback v) (writeCallbackFn B.helpers v) st) st1
  let st3 := conv.Dictionary.foldl
    (fun st v => if v.inUse then writeType (.dictionary v) B.writeDictionary st else st) st2
  conv.Interface.foldl
    (fun st v => if v.inUse then writeType (.interface v) B.writeInterface st else st) st3

/-- Result of `WriteSource`: the returned map (`none` is the nil map), the
returned error, and the state after the first four loops. -/
structure Output where
  files : Option Files
  err : Option String
  run : Run

/-- Embedding of `WriteSource`. Go visits the entries of a map in an order it
does not specify; `visit` gives the order in which `range target` visits them. -/
def WriteSource (B : Backend) (visit : Buffers → Buffers) (conv : Convert) : Output :=
  let st := writeAll B conv
  match st.err with
  | some e => { files := none, err := some e, run := st }
  | none => { files := some (rangeTarget B (visit st.target) (fun _ => none)), err := none, run := st }

/-- The calls of `writeType` that `WriteSource` makes, in order: the value and
the writer. -/
def jobs (B : Backend) (conv : Convert) : List (Element × writeFn) :=
  (conv.Enums.filter (fun e => e.inUse)).map (fun e => (Element.enum e, B.writeEnum)) ++
  conv.Callbacks.map (fun v => (Element.callback v, writeCallbackFn B.helpers v)) ++
  (conv.Dictionary.filter (fun v => v.inUse)).map
    (fun v => (Element.dictionary v, B.writeDictionary)) ++
  (conv.Interface.filter (fun v => v.inUse)).map
    (fun v => (Element.interface v, B.writeInterface))

/-- A sequence of `writeType` calls, the error of each passed on to the next. -/
def runJobs : List (Element × writeFn) → Run → Run
  | [], st => st
  | j :: rest, st => runJobs rest (writeType j.1 j.2 st)

/-- The calls of a sequence up to and including the first whose writer returns
an error. -/
def executed : List (Element × writeFn) → List (Element × writeFn)
  | [] => []
  | j :: rest => if (j.2 j.1).2.isSome then [j] else j :: executed rest

/-- What one executed call does to the map: `getTarget`, then the write of the
writer's bytes to the buffer of the element's package. -/
def applyJob (target : Buffers) (j : Element × writeFn) : Buffers :=
  writeBuffer (getTarget j.1 target).1 j.1.Package (j.2 j.1).1

/-- The error of the first call of a sequence whose writer returns one. -/
def firstError : List (Element × writeFn) → Option String
  | [] => none
  | j :: rest =>
    match (j.2 j.1).2 with
    | some e => some e
    | none => firstError rest

/-- The bytes the writers of the calls `ex` wrote for elements of package `p`,
in call order. -/
def outputsFor (p : String) (ex : List (Element × writeFn)) : List Nat :=
  (ex.filter (fun j => j.1.Package = p)).flatMap (fun j => (j.2 j.1).1)

/-- All the pieces `writeCallback` wrote, in order. -/
def Emitted.pieces (e : Emitted) : List Piece := e.chunks.flatMap (fun c => c.pieces)

/-- The wrapper signature declares the named result: the `_result` of the
`{{if len .Return.InOut}}` block of the `middle` template was emitted. -/
abbrev Emitted.declaresResult (e : Emitted) : Prop :=
  Piece.opt .lenReturnInOut "_result" ∈ e.pieces

/-- The assignment `_result = _converted` of the `end` template was emitted. -/
abbrev Emitted.assignsResult (e : Emitted) : Prop :=
  Piece.opt .notVoidRet "_result = _converted" ∈ e.pieces

/-- The host call is bound: the `_returned := ` of the `invoke` template was
emitted. -/
abbrev Emitted.bindsReturned (e : Emitted) : Prop :=
  Piece.opt .notVoidRet "_returned := " ∈ e.pieces

/-- The result decoding (from `_returned` to `_converted`) was emitted: the
`unpack` stage wrote a chunk. -/
abbrev Emitted.decodesResult (e : Emitted) : Prop :=
  ∃ c ∈ e.chunks, c.stage = Stage.unpack

/-! ### Sample data -/

/-- Sample callback `Compare(a, b) -> long` with a numeric and a string
parameter. -/
def sampleCompareCallback : Callback :=
  { name := { Package := "dom", Idl := "Compare", Def := "Compare" }
    inUse := true
    Parameters := [{ Name := "a", Type_ := .named ⟨"long", "int", "int"⟩,
                     Optional := false, Variadic := false },
                   { Name := "b", Type_ := .named ⟨"DOMString", "string", "string"⟩,
                     Optional := false, Variadic := false }]
    Return := .named ⟨"long", "int", "int"⟩ }

/-- Sample helpers: a conversion plan is the list of the parameter names, and
the writers emit one statement per name and never fail. -/
def sampleHelpers : Helpers where
  inoutData := List String
  AllOut := fun d => String.intercalate ", " d
  setupInOutWasmData := fun ps _ _ => ps.map (fun q => q.Name)
  setupInOutWasmForType := fun _ _ _ out => [out]
  calculateMethodArgsSize := fun d => "[" ++ toString d.length ++ "]interface\x7b\x7d"
  parameterArgumentLine := fun ps =>
    (String.intercalate ", " (ps.map (fun q => q.Name ++ " js.Value")), ps.map (fun q => q.Name))
  writeInOutFromWasm := fun d _ =>
    (String.join (d.map (fun n => "\t\t" ++ n ++ " := fromWasm()\n")), none)
  writeInOutToWasm := fun d _ =>
    (String.join (d.map (fun n => "\t\t_args[_end] = " ++ n ++ "; _end++\n")), none)
  callbackDefaultParam := fun cb => { Idl := cb.name.Idl, Def := cb.name.Def, InOut := cb.name.Def }

/-- Sample callback `EventHandler(event) -> void`. -/
def sampleVoidCallback : Callback :=
  { name := { Package := "dom", Idl := "EventHandler", Def := "EventHandler" }
    inUse := true
    Parameters := [{ Name := "event", Type_ := .named ⟨"Event", "Event", "*Event"⟩,
                     Optional := false, Variadic := false }]
    Return := .void }

/-- Sample backend: every writer emits one line and none fails; the formatter
rejects a source that starts with `package a` and returns any other source
unchanged; lower-casing is that of the ASCII letters. -/
def sampleBackend : Backend where
  helpers := sampleHelpers
  writeEnum := fun _ => (ascii "type Mode int\n", none)
  writeDictionary := fun _ => (ascii "type Init struct\n", none)
  writeInterface := fun _ => (ascii "type Node struct\n", none)
  formatSource := fun b => if (ascii "package a\n").isPrefixOf b then none else some b
  ToLower := fun s => String.mk (s.toList.map Char.toLower)

/-- Sample enum of package `p`. -/
def sampleEnumIn (p : String) (inUse : Bool) : Enum :=
  { name := { Package := p, Idl := "Mode", Def := "Mode" }, inUse := inUse, members := [] }

/-- Sample callback whose return type is not void but for which the type-info
service answers with an empty type text. -/
def sampleUntypedCallback : Callback :=
  { sampleCompareCallback with Return := .named ⟨"any", "", ""⟩ }

/-- Sample helpers whose packing writer fails. -/
def samplePackFailingHelpers : Helpers :=
  { sampleHelpers with writeInOutToWasm := fun _ _ => ("", some "no conversion") }

/-- Sample callback that is not in use. -/
def sampleUnusedCallback : Callback := { sampleVoidCallback with inUse := false }

/-- Sample store: an enum and a callback, both of package `dom`, neither in
use. -/
def sampleUnusedStore : Convert :=
  { Enums := [sampleEnumIn "dom" false], Callbacks := [sampleUnusedCallback],
    Dictionary := [], Interface := [] }

/-- Sample store: two enums in use, one of package `a` and one of package `A`. -/
def sampleCaseStore : Convert :=
  { Enums := [sampleEnumIn "a" true, sampleEnumIn "A" true], Callbacks := [],
    Dictionary := [], Interface := [] }

/-- Sample dictionary of package `dom`. -/
def sampleDomDictionary : Dictionary :=
  { name := { Package := "dom", Idl := "Init", Def := "Init" }, inUse := true }

/-- Sample interface of package `dom`. -/
def sampleDomInterface : Interface :=
  { name := { Package := "dom", Idl := "Node", Def := "Node" }, inUse := true, members := [] }

/-- Sample store: an enum, a dictionary and an interface of package `dom`, all
in use. -/
def sampleDomStore : Convert :=
  { Enums := [sampleEnumIn "dom" true]
    Callbacks := []
    Dictionary := [sampleDomDictionary]
    Interface := [sampleDomInterface] }

/-- Sample backend whose dictionary writer fails after writing four bytes. -/
def sampleFailingBackend : Backend :=
  { sampleBackend with writeDictionary := fun _ => (ascii "type", some "unsupported member") }

end gowasm

/-! ## Theorems: `transform/actions.go` -/

namespace transform

open types

/-- C1: a property-set action whose key is missing from the key->setter table
of the kind it is executed on (callback, dictionary, enum, interface) appends
exactly one diagnostic, carrying the action's own source reference, after the
diagnostics already present, and hands back the element (and the member index)
unchanged. -/
theorem property_unknown_key_one_diagnostic (P : PropertyTables) (Name Value : String)
    (Ref : ref) (c : Callback) (d : Dictionary) (e : Enum) (v : Interface)
    (targets : Targets) (tr : Transform) :
    (P.callbackProperties Name = none →
      (Action.property Name Value Ref).ExecuteCallback P c tr
        = (c, ⟨tr.errors ++ [⟨Ref, unknownPropertyMessage Name P.callbackPropertyNames⟩]⟩)) ∧
    (P.dictionaryProperties Name = none →
      (Action.property Name Value Ref).ExecuteDictionary P d tr
        = (d, ⟨tr.errors ++ [⟨Ref, unknownPropertyMessage Name P.dictionaryPropertyNames⟩]⟩)) ∧
    (P.enumProperties Name = none →
      (Action.property Name Value Ref).ExecuteEnum P e targets tr
        = ⟨e, targets, ⟨tr.errors ++ [⟨Ref, unknownPropertyMessage Name P.enumPropertyNames⟩]⟩⟩) ∧
    (P.interfaceProperties Name = none →
      (Action.property Name Value Ref).ExecuteInterface P v targets tr
        = ⟨v, targets,
            ⟨tr.errors ++ [⟨Ref, unknownPropertyMessage Name P.interfacePropertyNames⟩]⟩⟩) := by
  refine ⟨?_, ?_, ?_, ?_⟩ <;> intro h <;>
    simp [Action.ExecuteCallback, Action.ExecuteDictionary, Action.ExecuteEnum,
      Action.ExecuteInterface, h, Transform.messageError]

/-- Witness of C1: the key `colour` is in none of the sample tables; executed
on each of the four sample elements it reports one diagnostic and changes
nothing. -/
theorem property_unknown_key_one_diagnostic_witness :
    (sampleTables.callbackProperties "colour" = none ∧
      sampleTables.dictionaryProperties "colour" = none ∧
      sampleTables.enumProperties "colour" = none ∧
      sampleTables.interfaceProperties "colour" = none) ∧
    (Action.property "colour" "red" sampleRef).ExecuteCallback sampleTables sampleCallback ⟨[]⟩
        = (sampleCallback, ⟨[⟨sampleRef, "unknown property \x27colour\x27, valid are: package"⟩]⟩) ∧
    (Action.property "colour" "red" sampleRef).ExecuteDictionary sampleTables sampleDictionary
        ⟨[]⟩
        = (sampleDictionary,
            ⟨[⟨sampleRef, "unknown property \x27colour\x27, valid are: package"⟩]⟩) ∧
    ((Action.property "colour" "red" sampleRef).ExecuteEnum sampleTables sampleEnum
        sampleEnumTargets ⟨[]⟩).instance_ = sampleEnum ∧
    ((Action.property "colour" "red" sampleRef).ExecuteInterface sampleTables sampleInterface
        sampleEnumTargets ⟨[]⟩).instance_ = sampleInterface :=
  have h := property_unknown_key_one_diagnostic sampleTables "colour" "red" sampleRef
    sampleCallback sampleDictionary sampleEnum sampleInterface sampleEnumTargets ⟨[]⟩
  ⟨⟨by simp [sampleTables], by simp [sampleTables], by simp [sampleTables],
      by simp [sampleTables]⟩,
    (h.1 (by simp [sampleTables])).trans (by decide),
    (h.2.1 (by simp [sampleTables])).trans (by decide),
    by rw [h.2.2.1 (by simp [sampleTables])],
    by rw [h.2.2.2 (by simp [sampleTables])]⟩

/-! ### The rename actions -/

theorem assignDef_length (value : String) (i : Nat) (arena : List MethodName) :
    (assignDef value i arena).length = arena.length := by
  induction arena generalizing i with
  | nil => simp [assignDef]
  | cons m ms ih => cases i <;> simp [assignDef, ih]

theorem assignDef_getElem?_self (value : String) (i : Nat) (arena : List MethodName)
    (m : MethodName) (h : arena[i]? = some m) :
    (assignDef value i arena)[i]? = some ⟨m.Idl, value⟩ := by
  induction arena generalizing i with
  | nil => simp at h
  | cons a ms ih =>
    cases i with
    | zero =>
      simp at h
      simp [assignDef, h]
    | succ k =>
      simp at h
      simpa [assignDef] using ih k h

theorem assignDef_getElem?_ne (value : String) (i j : Nat) (arena : List MethodName)
    (h : j ≠ i) : (assignDef value i arena)[j]? = arena[j]? := by
  induction arena generalizing i j with
  | nil => simp [assignDef]
  | cons a ms ih =>
    cases i with
    | zero =>
      cases j with
      | zero => exact absurd rfl h
      | succ l => simp [assignDef]
    | succ k =>
      cases j with
      | zero => simp [assignDef]
      | succ l =>
        have hl : l ≠ k := fun hk => h (by rw [hk])
        simpa [assignDef] using ih k l hl

theorem rename_enum_found (P : PropertyTables) (Name Value : String) (Ref : ref) (e : Enum)
    (targets : Targets) (tr : Transform) (i : Nat) (hfound : targets Name = some i) :
    (Action.rename Name Value Ref).ExecuteEnum P e targets tr
      = ⟨{ e with members := assignDef Value i e.members }, targets, tr⟩ := by
  simp [Action.ExecuteEnum, genericRename, hfound]

theorem rename_interface_found (P : PropertyTables) (Name Value : String) (Ref : ref)
    (v : Interface) (targets : Targets) (tr : Transform) (i : Nat)
    (hfound : targets Name = some i) :
    (Action.rename Name Value Ref).ExecuteInterface P v targets tr
      = ⟨{ v with members := assignDef Value i v.members }, targets, tr⟩ := by
  simp [Action.ExecuteInterface, genericRename, hfound]

/-- C2: a rename executed on an enum or an interface whose member index maps
the action's name to the member record `m` sets the output name `Def` of that
record to the action's value and keeps its schema name `Idl`; the element's
own name and in-use flag, the number of member records, every other member
record and the transform (the diagnostics) are unchanged. -/
theorem rename_found_sets_output_name (P : PropertyTables) (Name Value : String) (Ref : ref)
    (e : Enum) (v : Interface) (targets : Targets) (tr : Transform) (i : Nat) (m : MethodName)
    (hfound : targets Name = some i) :
    (e.members[i]? = some m →
      ((Action.rename Name Value Ref).ExecuteEnum P e targets tr).instance_.members[i]?
          = some ⟨m.Idl, Value⟩ ∧
      ((Action.rename Name Value Ref).ExecuteEnum P e targets tr).instance_.name = e.name ∧
      ((Action.rename Name Value Ref).ExecuteEnum P e targets tr).instance_.inUse = e.inUse ∧
      ((Action.rename Name Value Ref).ExecuteEnum P e targets tr).instance_.members.length
          = e.members.length ∧
      (∀ j, j ≠ i →
        ((Action.rename Name Value Ref).ExecuteEnum P e targets tr).instance_.members[j]?
          = e.members[j]?) ∧
      ((Action.rename Name Value Ref).ExecuteEnum P e targets tr).trans = tr) ∧
    (v.members[i]? = some m →
      ((Action.rename Name Value Ref).ExecuteInterface P v targets tr).instance_.members[i]?
          = some ⟨m.Idl, Value⟩ ∧
      ((Action.rename Name Value Ref).ExecuteInterface P v targets tr).instance_.name = v.name ∧
      ((Action.rename Name Value Ref).ExecuteInterface P v targets tr).instance_.inUse = v.inUse ∧
      ((Action.rename Name Value Ref).ExecuteInterface P v targets tr).instance_.members.length
          = v.members.length ∧
      (∀ j, j ≠ i →
        ((Action.rename Name Value Ref).ExecuteInterface P v targets tr).instance_.members[j]?
          = v.members[j]?) ∧
      ((Action.rename Name Value Ref).ExecuteInterface P v targets tr).trans = tr) := by
  constructor
  · intro hm
    rw [rename_enum_found P Name Value Ref e targets tr i hfound]
    exact ⟨assignDef_getElem?_self Value i e.members m hm, rfl, rfl,
      assignDef_length Value i e.members,
      fun j hj => assignDef_getElem?_ne Value i j e.members hj, rfl⟩
  · intro hm
    rw [rename_interface_found P Name Value Ref v targets tr i hfound]
    exact ⟨assignDef_getElem?_self Value i v.members m hm, rfl, rfl,
      assignDef_length Value i v.members,
      fun j hj => assignDef_getElem?_ne Value i j v.members hj, rfl⟩

/-- Witness of C2: renaming the member at position 1 of the sample enum
(`closed`) to `Shut`, on the enum and on an interface with the same member
records. -/
theorem rename_found_sets_output_name_witness :
    (sampleEnumTargets "closed" = some 1 ∧ sampleEnum.members[1]? = some ⟨"closed", "Closed"⟩) ∧
    ((Action.rename "closed" "Shut" sampleRef).ExecuteEnum sampleTables sampleEnum
        sampleEnumTargets ⟨[]⟩).instance_.members[1]? = some ⟨"closed", "Shut"⟩ ∧
    ((Action.rename "closed" "Shut" sampleRef).ExecuteInterface sampleTables
        { sampleInterface with members := sampleEnum.members }
        sampleEnumTargets ⟨[]⟩).instance_.members[1]? = some ⟨"closed", "Shut"⟩ :=
  have h := rename_found_sets_output_name sampleTables "closed" "Shut" sampleRef sampleEnum
    { sampleInterface with members := sampleEnum.members } sampleEnumTargets ⟨[]⟩ 1
    ⟨"closed", "Closed"⟩ (by simp [sampleEnumTargets])
  ⟨⟨by simp [sampleEnumTargets], by decide⟩, (h.1 (by decide)).1, (h.2 (by decide)).1⟩

/-- Counterexample to C3 as stated: after member `closed` of the sample enum
has been renamed to `Shut` (the record now carries the new output name and no
diagnostic was reported), the member index still has no entry for `Shut`. -/
theorem rename_new_name_not_in_index :
    sampleEnumTargets "closed" = some 1 ∧
    ((Action.rename "closed" "Shut" sampleRef).ExecuteEnum sampleTables sampleEnum
        sampleEnumTargets ⟨[]⟩).instance_.members[1]? = some ⟨"closed", "Shut"⟩ ∧
    ((Action.rename "closed" "Shut" sampleRef).ExecuteEnum sampleTables sampleEnum
        sampleEnumTargets ⟨[]⟩).trans.errors = [] ∧
    ((Action.rename "closed" "Shut" sampleRef).ExecuteEnum sampleTables sampleEnum
        sampleEnumTargets ⟨[]⟩).targets "Shut" = none := by
  refine ⟨by simp [sampleEnumTargets], ?_, ?_, ?_⟩ <;>
    simp [Action.ExecuteEnum, genericRename, sampleEnumTargets, sampleEnum, assignDef]

/-- C3, amended: a rename of member `Name` to `Value` on an enum or interface
leaves the member index as it was, so after the action a lookup by the
original name `Name` still succeeds and yields the record whose output name is
now `Value`, while a lookup by `Value` gives what it gave before the action. -/
theorem rename_keeps_index (P : PropertyTables) (Name Value : String) (Ref : ref)
    (e : Enum) (v : Interface) (targets : Targets) (tr : Transform) (i : Nat) (m : MethodName)
    (hfound : targets Name = some i) :
    (e.members[i]? = some m →
      ((Action.rename Name Value Ref).ExecuteEnum P e targets tr).targets = targets ∧
      ((Action.rename Name Value Ref).ExecuteEnum P e targets tr).targets Name = some i ∧
      (((Action.rename Name Value Ref).ExecuteEnum P e targets tr).instance_.members[i]?).map
          (fun r => r.Def) = some Value ∧
      ((Action.rename Name Value Ref).ExecuteEnum P e targets tr).targets Value
          = targets Value) ∧
    (v.members[i]? = some m →
      ((Action.rename Name Value Ref).ExecuteInterface P v targets tr).targets = targets ∧
      ((Action.rename Name Value Ref).ExecuteInterface P v targets tr).targets Name = some i ∧
      (((Action.rename Name Value Ref).ExecuteInterface P v targets tr).instance_.members[i]?).map
          (fun r => r.Def) = some Value ∧
      ((Action.rename Name Value Ref).ExecuteInterface P v targets tr).targets Value
          = targets Value) := by
  constructor
  · intro hm
    rw [rename_enum_found P Name Value Ref e targets tr i hfound]
    refine ⟨rfl, hfound, ?_, rfl⟩
    show ((assignDef Value i e.members)[i]?).map (fun r => r.Def) = some Value
    rw [assignDef_getElem?_self Value i e.members m hm]
    rfl
  · intro hm
    rw [rename_interface_found P Name Value Ref v targets tr i hfound]
    refine ⟨rfl, hfound, ?_, rfl⟩
    show ((assignDef Value i v.members)[i]?).map (fun r => r.Def) = some Value
    rw [assignDef_getElem?_self Value i v.members m hm]
    rfl

/-- Witness of C3, amended: after `appendChild` of the sample interface has
been renamed to `Append`, the index still finds the member under
`appendChild`; the same on an enum with the same member records. -/
theorem rename_keeps_index_witness :
    (sampleInterfaceTargets "appendChild" = some 0 ∧
      sampleInterface.members[0]? = some ⟨"appendChild", "AppendChild"⟩) ∧
    ((Action.rename "appendChild" "Append" sampleRef).ExecuteInterface sampleTables
        sampleInterface sampleInterfaceTargets ⟨[]⟩).targets "appendChild" = some 0 ∧
    ((Action.rename "appendChild" "Append" sampleRef).ExecuteEnum sampleTables
        { sampleEnum with members := sampleInterface.members }
        sampleInterfaceTargets ⟨[]⟩).targets "appendChild" = some 0 :=
  have h := rename_keeps_index sampleTables "appendChild" "Append" sampleRef
    { sampleEnum with members := sampleInterface.members } sampleInterface
    sampleInterfaceTargets ⟨[]⟩ 0 ⟨"appendChild", "AppendChild"⟩
    (by simp [sampleInterfaceTargets])
  ⟨⟨by simp [sampleInterfaceTargets], by decide⟩, (h.2 (by decide)).2.1, (h.1 (by decide)).2.1⟩

/-- C4: a rename executed on an enum or an interface whose member index has no
entry for the action's name appends exactly one diagnostic, "unknown rename
target", carrying the action's source reference, after the diagnostics already
present; the element with all its member records and the index are handed back
unchanged. -/
theorem rename_unknown_target_one_diagnostic (P : PropertyTables) (Name Value : String)
    (Ref : ref) (e : Enum) (v : Interface) (targets : Targets) (tr : Transform)
    (hmiss : targets Name = none) :
    (Action.rename Name Value Ref).ExecuteEnum P e targets tr
      = ⟨e, targets, ⟨tr.errors ++ [⟨Ref, unknownRenameMessage Name⟩]⟩⟩ ∧
    (Action.rename Name Value Ref).ExecuteInterface P v targets tr
      = ⟨v, targets, ⟨tr.errors ++ [⟨Ref, unknownRenameMessage Name⟩]⟩⟩ := by
  constructor <;>
    simp [Action.ExecuteEnum, Action.ExecuteInterface, genericRename, hmiss,
      Transform.messageError]

/-- Witness of C4: the sample enum has no member `ajar`. -/
theorem rename_unknown_target_one_diagnostic_witness :
    sampleEnumTargets "ajar" = none ∧
    ((Action.rename "ajar" "Ajar" sampleRef).ExecuteEnum sampleTables sampleEnum
        sampleEnumTargets ⟨[]⟩).trans.errors
      = [⟨sampleRef, "unknown rename target \x27ajar\x27"⟩] ∧
    ((Action.rename "ajar" "Ajar" sampleRef).ExecuteEnum sampleTables sampleEnum
        sampleEnumTargets ⟨[]⟩).instance_ = sampleEnum :=
  have h := (rename_unknown_target_one_diagnostic sampleTables "ajar" "Ajar" sampleRef
    sampleEnum sampleInterface sampleEnumTargets ⟨[]⟩ (by simp [sampleEnumTargets])).1
  ⟨by simp [sampleEnumTargets], by rw [h]; decide, by rw [h]⟩

/-- C5: a rename executed on a callback or on a dictionary, whatever its name
and value, appends exactly one diagnostic carrying the action's source
reference after the diagnostics already present and hands the element back
unchanged. -/
theorem rename_on_callback_or_dictionary (P : PropertyTables) (Name Value : String) (Ref : ref)
    (c : Callback) (d : Dictionary) (tr : Transform) :
    (Action.rename Name Value Ref).ExecuteCallback P c tr
      = (c, ⟨tr.errors ++
          [⟨Ref, "callback doesn\x27t have any attributes or methods that can be renamed"⟩]⟩) ∧
    (Action.rename Name Value Ref).ExecuteDictionary P d tr
      = (d, ⟨tr.errors ++
          [⟨Ref, "dictionary doesn\x27t have any attributes or methods that can be renamed"⟩]⟩) :=
  ⟨rfl, rfl⟩

/-- C6: executing a `globalRegExp` action on an element of any of the four
kinds gives exactly the element, member index and diagnostics that executing
the wrapped action `What` on it gives. -/
theorem globalRegExp_executes_wrapped (P : PropertyTables) (Match : String) (ty : matchType)
    (What : Action) (Ref : ref) (c : Callback) (d : Dictionary) (e : Enum) (v : Interface)
    (targets : Targets) (tr : Transform) :
    (Action.globalRegExp Match ty What Ref).ExecuteCallback P c tr
      = What.ExecuteCallback P c tr ∧
    (Action.globalRegExp Match ty What Ref).ExecuteDictionary P d tr
      = What.ExecuteDictionary P d tr ∧
    (Action.globalRegExp Match ty What Ref).ExecuteEnum P e targets tr
      = What.ExecuteEnum P e targets tr ∧
    (Action.globalRegExp Match ty What Ref).ExecuteInterface P v targets tr
      = What.ExecuteInterface P v targets tr :=
  ⟨rfl, rfl, rfl, rfl⟩

/-! ### Accumulation of diagnostics -/

theorem runSteps_accumulates {σ : Type} (step : Action → σ → Transform → σ × Transform)
    (fails : Action → Bool)
    (hfail : ∀ a, fails a = true →
      ∃ d : Diagnostic, d.Ref = a.core.Reference ∧ ∀ s tr, step a s tr = (s, ⟨tr.errors ++ [d]⟩))
    (hok : ∀ a, fails a = false →
      ∀ s tr, (step a s tr).2 = tr ∧ ∀ tr', (step a s tr').1 = (step a s tr).1)
    (acts : List Action) (s : σ) (tr : Transform) :
    (∃ new : List Diagnostic, (runSteps step acts s tr).2.errors = tr.errors ++ new ∧
      new.map (fun x => x.Ref) = (acts.filter fails).map (fun a => a.core.Reference) ∧
      new.length = (acts.filter fails).length) ∧
    ∀ tr', (runSteps step acts s tr).1
      = (runSteps step (acts.filter (fun a => !fails a)) s tr').1 := by
  induction acts generalizing s tr with
  | nil => exact ⟨⟨[], by simp [runSteps], rfl, rfl⟩, fun _ => rfl⟩
  | cons a rest ih =>
    cases hf : fails a with
    | true =>
      obtain ⟨d, hd, hstep⟩ := hfail a hf
      obtain ⟨⟨new, h1, h2, h3⟩, h4⟩ := ih s ⟨tr.errors ++ [d]⟩
      refine ⟨⟨d :: new, ?_, ?_, ?_⟩, ?_⟩
      · simp only [runSteps, hstep]
        rw [h1]
        simp
      · simp [List.filter_cons, hf, h2, hd]
      · simp [List.filter_cons, hf, h3]
      · intro tr'
        simp only [runSteps, hstep, List.filter_cons, hf]
        exact h4 tr'
    | false =>
      obtain ⟨hkeep, hindep⟩ := hok a hf s tr
      obtain ⟨⟨new, h1, h2, h3⟩, h4⟩ := ih (step a s tr).1 tr
      refine ⟨⟨new, ?_, ?_, ?_⟩, ?_⟩
      · simp only [runSteps, hkeep]
        exact h1
      · simp [List.filter_cons, hf, h2]
      · simp [List.filter_cons, hf, h3]
      · intro tr'
        have hk' := (hok a hf s tr').1
        simp only [runSteps, List.filter_cons, hf, hkeep, hk', Bool.not_false, if_true]
        rw [hindep tr']
        exact h4 tr'

theorem callback_fails (P : PropertyTables) (a : Action) (h : a.failsOnCallback P = true) :
    ∃ d : Diagnostic, d.Ref = a.core.Reference ∧
      ∀ c tr, a.ExecuteCallback P c tr = (c, ⟨tr.errors ++ [d]⟩) := by
  induction a with
  | property Name Value Ref =>
    have hn : P.callbackProperties Name = none := by
      simpa [Action.failsOnCallback] using h
    exact ⟨⟨Ref, unknownPropertyMessage Name P.callbackPropertyNames⟩, rfl, fun c tr => by
      simp [Action.ExecuteCallback, hn, Transform.messageError]⟩
  | rename Name Value Ref => exact ⟨_, rfl, fun c tr => rfl⟩
  | globalRegExp Match ty What Ref ih => exact ih h

theorem callback_succeeds (P : PropertyTables) (a : Action) (h : a.failsOnCallback P = false)
    (c : Callback) (tr : Transform) :
    (a.ExecuteCallback P c tr).2 = tr ∧
      ∀ tr', (a.ExecuteCallback P c tr').1 = (a.ExecuteCallback P c tr).1 := by
  induction a with
  | property Name Value Ref =>
    cases hn : P.callbackProperties Name with
    | none => simp [Action.failsOnCallback, hn] at h
    | some f => simp [Action.ExecuteCallback, hn]
  | rename Name Value Ref => simp [Action.failsOnCallback] at h
  | globalRegExp Match ty What Ref ih => exact ih h

theorem dictionary_fails (P : PropertyTables) (a : Action) (h : a.failsOnDictionary P = true) :
    ∃ d : Diagnostic, d.Ref = a.core.Reference ∧
      ∀ c tr, a.ExecuteDictionary P c tr = (c, ⟨tr.errors ++ [d]⟩) := by
  induction a with
  | property Name Value Ref =>
    have hn : P.dictionaryProperties Name = none := by
      simpa [Action.failsOnDictionary] using h
    exact ⟨⟨Ref, unknownPropertyMessage Name P.dictionaryPropertyNames⟩, rfl, fun c tr => by
      simp [Action.ExecuteDictionary, hn, Transform.messageError]⟩
  | rename Name Value Ref => exact ⟨_, rfl, fun c tr => rfl⟩
  | globalRegExp Match ty What Ref ih => exact ih h

theorem dictionary_succeeds (P : PropertyTables) (a : Action)
    (h : a.failsOnDictionary P = false) (c : Dictionary) (tr : Transform) :
    (a.ExecuteDictionary P c tr).2 = tr ∧
      ∀ tr', (a.ExecuteDictionary P c tr').1 = (a.ExecuteDictionary P c tr).1 := by
  induction a with
  | property Name Value Ref =>
    cases hn : P.dictionaryProperties Name with
    | none => simp [Action.failsOnDictionary, hn] at h
    | some f => simp [Action.ExecuteDictionary, hn]
  | rename Name Value Ref => simp [Action.failsOnDictionary] at h
  | globalRegExp Match ty What Ref ih => exact ih h

theorem enum_targets_kept (P : PropertyTables) (a : Action) (e : Enum) (targets : Targets)
    (tr : Transform) : (a.ExecuteEnum P e targets tr).targets = targets := by
  induction a with
  | property Name Value Ref =>
    cases hn : P.enumProperties Name <;> simp [Action.ExecuteEnum, hn]
  | rename Name Value Ref =>
    cases hn : targets Name <;> simp [Action.ExecuteEnum, genericRename, hn]
  | globalRegExp Match ty What Ref ih => exact ih

theorem enum_fails (P : PropertyTables) (targets : Targets) (a : Action)
    (h : a.failsOnEnum P targets = true) :
    ∃ d : Diagnostic, d.Ref = a.core.Reference ∧
      ∀ e tr, a.ExecuteEnum P e targets tr = ⟨e, targets, ⟨tr.errors ++ [d]⟩⟩ := by
  induction a with
  | property Name Value Ref =>
    have hn : P.enumProperties Name = none := by simpa [Action.failsOnEnum] using h
    exact ⟨⟨Ref, unknownPropertyMessage Name P.enumPropertyNames⟩, rfl, fun e tr => by
      simp [Action.ExecuteEnum, hn, Transform.messageError]⟩
  | rename Name Value Ref =>
    have hn : targets Name = none := by simpa [Action.failsOnEnum] using h
    exact ⟨⟨Ref, unknownRenameMessage Name⟩, rfl, fun e tr => by
      simp [Action.ExecuteEnum, genericRename, hn, Transform.messageError]⟩
  | globalRegExp Match ty What Ref ih => exact ih h

theorem enum_succeeds (P : PropertyTables) (targets : Targets) (a : Action)
    (h : a.failsOnEnum P targets = false) (e : Enum) (tr : Transform) :
    (a.ExecuteEnum P e targets tr).trans = tr ∧
      ∀ tr', (a.ExecuteEnum P e targets tr').instance_
        = (a.ExecuteEnum P e targets tr).instance_ := by
  induction a with
  | property Name Value Ref =>
    cases hn : P.enumProperties Name with
    | none => simp [Action.failsOnEnum, hn] at h
    | some f => simp [Action.ExecuteEnum, hn]
  | rename Name Value Ref =>
    cases hn : targets Name with
    | none => simp [Action.failsOnEnum, hn] at h
    | some i => simp [Action.ExecuteEnum, genericRename, hn]
  | globalRegExp Match ty What Ref ih => exact ih h

theorem interface_targets_kept (P : PropertyTables) (a : Action) (v : Interface)
    (targets : Targets) (tr : Transform) : (a.ExecuteInterface P v targets tr).targets = targets := by
  induction a with
  | property Name Value Ref =>
    cases hn : P.interfaceProperties Name <;> simp [Action.ExecuteInterface, hn]
  | rename Name Value Ref =>
    cases hn : targets Name <;> simp [Action.ExecuteInterface, genericRename, hn]
  | globalRegExp Match ty What Ref ih => exact ih

theorem interface_fails (P : PropertyTables) (targets : Targets) (a : Action)
    (h : a.failsOnInterface P targets = true) :
    ∃ d : Diagnostic, d.Ref = a.core.Reference ∧
      ∀ v tr, a.ExecuteInterface P v targets tr = ⟨v, targets, ⟨tr.errors ++ [d]⟩⟩ := by
  induction a with
  | property Name Value Ref =>
    have hn : P.interfaceProperties Name = none := by simpa [Action.failsOnInterface] using h
    exact ⟨⟨Ref, unknownPropertyMessage Name P.interfacePropertyNames⟩, rfl, fun v tr => by
      simp [Action.ExecuteInterface, hn, Transform.messageError]⟩
  | rename Name Value Ref =>
    have hn : targets Name = none := by simpa [Action.failsOnInterface] using h
    exact ⟨⟨Ref, unknownRenameMessage Name⟩, rfl, fun v tr => by
      simp [Action.ExecuteInterface, genericRename, hn, Transform.messageError]⟩
  | globalRegExp Match ty What Ref ih => exact ih h

theorem interface_succeeds (P : PropertyTables) (targets : Targets) (a : Action)
    (h : a.failsOnInterface P targets = false) (v : Interface) (tr : Transform) :
    (a.ExecuteInterface P v targets tr).trans = tr ∧
      ∀ tr', (a.ExecuteInterface P v targets tr').instance_
        = (a.ExecuteInterface P v targets tr).instance_ := by
  induction a with
  | property Name Value Ref =>
    cases hn : P.interfaceProperties Name with
    | none => simp [Action.failsOnInterface, hn] at h
    | some f => simp [Action.ExecuteInterface, hn]
  | rename Name Value Ref =>
    cases hn : targets Name with
    | none => simp [Action.failsOnInterface, hn] at h
    | some i => simp [Action.ExecuteInterface, genericRename, hn]
  | globalRegExp Match ty What Ref ih => exact ih h

theorem executeAllCallback_eq_runSteps (P : PropertyTables) (acts : List Action) (c : Callback)
    (tr : Transform) :
    executeAllCallback P acts c tr = runSteps (fun a => a.ExecuteCallback P) acts c tr := by
  induction acts generalizing c tr with
  | nil => rfl
  | cons a rest ih => simp only [executeAllCallback, runSteps, ih]

theorem executeAllDictionary_eq_runSteps (P : PropertyTables) (acts : List Action)
    (d : Dictionary) (tr : Transform) :
    executeAllDictionary P acts d tr = runSteps (fun a => a.ExecuteDictionary P) acts d tr := by
  induction acts generalizing d tr with
  | nil => rfl
  | cons a rest ih => simp only [executeAllDictionary, runSteps, ih]

theorem executeAllEnum_eq_runSteps (P : PropertyTables) (acts : List Action) (e : Enum)
    (targets : Targets) (tr : Transform) :
    executeAllEnum P acts e targets tr
      = ⟨(runSteps (fun a x t => ((a.ExecuteEnum P x targets t).instance_,
            (a.ExecuteEnum P x targets t).trans)) acts e tr).1, targets,
         (runSteps (fun a x t => ((a.ExecuteEnum P x targets t).instance_,
            (a.ExecuteEnum P x targets t).trans)) acts e tr).2⟩ := by
  induction acts generalizing e tr with
  | nil => rfl
  | cons a rest ih =>
    simp only [executeAllEnum, runSteps, enum_targets_kept, ih]

theorem executeAllInterface_eq_runSteps (P : PropertyTables) (acts : List Action)
    (v : Interface) (targets : Targets) (tr : Transform) :
    executeAllInterface P acts v targets tr
      = ⟨(runSteps (fun a x t => ((a.ExecuteInterface P x targets t).instance_,
            (a.ExecuteInterface P x targets t).trans)) acts v tr).1, targets,
         (runSteps (fun a x t => ((a.ExecuteInterface P x targets t).instance_,
            (a.ExecuteInterface P x targets t).trans)) acts v tr).2⟩ := by
  induction acts generalizing v tr with
  | nil => rfl
  | cons a rest ih =>
    simp only [executeAllInterface, runSteps, interface_targets_kept, ih]

theorem diagnostics_accumulate (P : PropertyTables) (acts : List Action) (c : Callback)
    (d : Dictionary) (e : Enum) (v : Interface) (targets : Targets) (tr : Transform) :
    ((∃ new : List Diagnostic, (executeAllCallback P acts c tr).2.errors = tr.errors ++ new ∧
        new.map (fun x => x.Ref)
          = (acts.filter (fun a => a.failsOnCallback P)).map (fun a => a.core.Reference) ∧
        new.length = (acts.filter (fun a => a.failsOnCallback P)).length) ∧
      (executeAllCallback P acts c tr).1
        = (executeAllCallback P (acts.filter (fun a => !a.failsOnCallback P)) c tr).1) ∧
    ((∃ new : List Diagnostic, (executeAllDictionary P acts d tr).2.errors = tr.errors ++ new ∧
        new.map (fun x => x.Ref)
          = (acts.filter (fun a => a.failsOnDictionary P)).map (fun a => a.core.Reference) ∧
        new.length = (acts.filter (fun a => a.failsOnDictionary P)).length) ∧
      (executeAllDictionary P acts d tr).1
        = (executeAllDictionary P (acts.filter (fun a => !a.failsOnDictionary P)) d tr).1) ∧
    ((∃ new : List Diagnostic,
        (executeAllEnum P acts e targets tr).trans.errors = tr.errors ++ new ∧
        new.map (fun x => x.Ref)
          = (acts.filter (fun a => a.failsOnEnum P targets)).map (fun a => a.core.Reference) ∧
        new.length = (acts.filter (fun a => a.failsOnEnum P targets)).length) ∧
      (executeAllEnum P acts e targets tr).instance_
        = (executeAllEnum P (acts.filter (fun a => !a.failsOnEnum P targets)) e targets
            tr).instance_) ∧
    ((∃ new : List Diagnostic,
        (executeAllInterface P acts v targets tr).trans.errors = tr.errors ++ new ∧
        new.map (fun x => x.Ref)
          = (acts.filter (fun a => a.failsOnInterface P targets)).map
              (fun a => a.core.Reference) ∧
        new.length = (acts.filter (fun a => a.failsOnInterface P targets)).length) ∧
      (executeAllInterface P acts v targets tr).instance_
        = (executeAllInterface P (acts.filter (fun a => !a.failsOnInterface P targets)) v
            targets tr).instance_) := by
  refine ⟨?_, ?_, ?_, ?_⟩
  · have h := runSteps_accumulates (fun a => a.ExecuteCallback P)
      (fun a => a.failsOnCallback P) (fun a ha => callback_fails P a ha)
      (fun a ha s t => callback_succeeds P a ha s t) acts c tr
    simp only [executeAllCallback_eq_runSteps]
    exact ⟨h.1, h.2 tr⟩
  · have h := runSteps_accumulates (fun a => a.ExecuteDictionary P)
      (fun a => a.failsOnDictionary P) (fun a ha => dictionary_fails P a ha)
      (fun a ha s t => dictionary_succeeds P a ha s t) acts d tr
    simp only [executeAllDictionary_eq_runSteps]
    exact ⟨h.1, h.2 tr⟩
  · have h := runSteps_accumulates
      (fun a x t => ((a.ExecuteEnum P x targets t).instance_,
        (a.ExecuteEnum P x targets t).trans))
      (fun a => a.failsOnEnum P targets)
      (fun a ha => by
        obtain ⟨dg, h1, h2⟩ := enum_fails P targets a ha
        exact ⟨dg, h1, fun s t => by simp only [h2]⟩)
      (fun a ha s t => enum_succeeds P targets a ha s t) acts e tr
    simp only [executeAllEnum_eq_runSteps]
    exact ⟨h.1, h.2 tr⟩
  · have h := runSteps_accumulates
      (fun a x t => ((a.ExecuteInterface P x targets t).instance_,
        (a.ExecuteInterface P x targets t).trans))
      (fun a => a.failsOnInterface P targets)
      (fun a ha => by
        obtain ⟨dg, h1, h2⟩ := interface_fails P targets a ha
        exact ⟨dg, h1, fun s t => by simp only [h2]⟩)
      (fun a ha s t => interface_succeeds P targets a ha s t) acts v tr
    simp only [executeAllInterface_eq_runSteps]
    exact ⟨h.1, h.2 tr⟩

theorem callback_step_effect (P : PropertyTables) (a : Action) (c : Callback) (tr : Transform) :
    (a.ExecuteCallback P c tr).1 = a.onCallback P c := by
  induction a with
  | property Name Value Ref =>
    cases hn : P.callbackProperties Name <;> simp [Action.ExecuteCallback, Action.onCallback, hn]
  | rename Name Value Ref => rfl
  | globalRegExp Match ty What Ref ih => exact ih

theorem dictionary_step_effect (P : PropertyTables) (a : Action) (d : Dictionary)
    (tr : Transform) : (a.ExecuteDictionary P d tr).1 = a.onDictionary P d := by
  induction a with
  | property Name Value Ref =>
    cases hn : P.dictionaryProperties Name <;>
      simp [Action.ExecuteDictionary, Action.onDictionary, hn]
  | rename Name Value Ref => rfl
  | globalRegExp Match ty What Ref ih => exact ih

theorem enum_step_effect (P : PropertyTables) (targets : Targets) (a : Action) (e : Enum)
    (tr : Transform) : (a.ExecuteEnum P e targets tr).instance_ = a.onEnum P targets e := by
  induction a with
  | property Name Value Ref =>
    cases hn : P.enumProperties Name <;> simp [Action.ExecuteEnum, Action.onEnum, hn]
  | rename Name Value Ref =>
    cases hn : targets Name <;> simp [Action.ExecuteEnum, Action.onEnum, genericRename, hn]
  | globalRegExp Match ty What Ref ih => exact ih

theorem interface_step_effect (P : PropertyTables) (targets : Targets) (a : Action)
    (v : Interface) (tr : Transform) :
    (a.ExecuteInterface P v targets tr).instance_ = a.onInterface P targets v := by
  induction a with
  | property Name Value Ref =>
    cases hn : P.interfaceProperties Name <;>
      simp [Action.ExecuteInterface, Action.onInterface, hn]
  | rename Name Value Ref =>
    cases hn : targets Name <;>
      simp [Action.ExecuteInterface, Action.onInterface, genericRename, hn]
  | globalRegExp Match ty What Ref ih => exact ih

theorem callback_run_effect (P : PropertyTables) (acts : List Action) (c : Callback)
    (tr : Transform) :
    (executeAllCallback P acts c tr).1 = acts.foldl (fun x a => a.onCallback P x) c := by
  induction acts generalizing c tr with
  | nil => rfl
  | cons a rest ih =>
    rw [executeAllCallback, ih, callback_step_effect, List.foldl_cons]

theorem dictionary_run_effect (P : PropertyTables) (acts : List Action) (d : Dictionary)
    (tr : Transform) :
    (executeAllDictionary P acts d tr).1 = acts.foldl (fun x a => a.onDictionary P x) d := by
  induction acts generalizing d tr with
  | nil => rfl
  | cons a rest ih =>
    rw [executeAllDictionary, ih, dictionary_step_effect, List.foldl_cons]

theorem enum_run_effect (P : PropertyTables) (targets : Targets) (acts : List Action) (e : Enum)
    (tr : Transform) :
    (executeAllEnum P acts e targets tr).instance_
      = acts.foldl (fun x a => a.onEnum P targets x) e := by
  induction acts generalizing e tr with
  | nil => rfl
  | cons a rest ih =>
    rw [executeAllEnum, enum_targets_kept, ih, enum_step_effect, List.foldl_cons]

theorem interface_run_effect (P : PropertyTables) (targets : Targets) (acts : List Action)
    (v : Interface) (tr : Transform) :
    (executeAllInterface P acts v targets tr).instance_
      = acts.foldl (fun x a => a.onInterface P targets x) v := by
  induction acts generalizing v tr with
  | nil => rfl
  | cons a rest ih =>
    rw [executeAllInterface, interface_targets_kept, ih, interface_step_effect, List.foldl_cons]

theorem callback_fails_effect (P : PropertyTables) (a : Action)
    (h : a.failsOnCallback P = true) (c : Callback) : a.onCallback P c = c := by
  obtain ⟨d, _, hd⟩ := callback_fails P a h
  rw [← callback_step_effect P a c ⟨[]⟩, hd]

theorem dictionary_fails_effect (P : PropertyTables) (a : Action)
    (h : a.failsOnDictionary P = true) (d : Dictionary) : a.onDictionary P d = d := by
  obtain ⟨dg, _, hd⟩ := dictionary_fails P a h
  rw [← dictionary_step_effect P a d ⟨[]⟩, hd]

theorem enum_fails_effect (P : PropertyTables) (targets : Targets) (a : Action)
    (h : a.failsOnEnum P targets = true) (e : Enum) : a.onEnum P targets e = e := by
  obtain ⟨dg, _, hd⟩ := enum_fails P targets a h
  rw [← enum_step_effect P targets a e ⟨[]⟩, hd]

theorem interface_fails_effect (P : PropertyTables) (targets : Targets) (a : Action)
    (h : a.failsOnInterface P targets = true) (v : Interface) : a.onInterface P targets v = v := by
  obtain ⟨dg, _, hd⟩ := interface_fails P targets a h
  rw [← interface_step_effect P targets a v ⟨[]⟩, hd]

/-- C7: for every list of actions executed in order on one element (callback,
dictionary, enum or interface), the diagnostics after the run are those present
before, followed by exactly one diagnostic per failing action (unknown property
key, unknown rename target, rename on a callback or dictionary), in the order
of the actions and each at the source reference of the failing action; so the
number of new diagnostics is the number of failing actions, and the element
after the run is the one obtained by executing only the succeeding actions.
The mutations are pinned: a property action whose key has the setter `f` turns
the element `x` into `f x Value` and a rename whose target is at position `i`
assigns the new output name to record `i`, both without touching the
diagnostics; a failing action leaves the element as it is; and the element
after the run is the result of applying the mutation of every action of the
list, in order, to the element before the run, whatever failed in between. -/
theorem errors_accumulate_in_order (P : PropertyTables) (acts : List Action) (c : Callback)
    (d : Dictionary) (e : Enum) (v : Interface) (targets : Targets) (tr : Transform) :
    (((∃ new : List Diagnostic, (executeAllCallback P acts c tr).2.errors = tr.errors ++ new ∧
        new.map (fun x => x.Ref)
          = (acts.filter (fun a => a.failsOnCallback P)).map (fun a => a.core.Reference) ∧
        new.length = (acts.filter (fun a => a.failsOnCallback P)).length) ∧
      (executeAllCallback P acts c tr).1
        = (executeAllCallback P (acts.filter (fun a => !a.failsOnCallback P)) c tr).1) ∧
    ((∃ new : List Diagnostic, (executeAllDictionary P acts d tr).2.errors = tr.errors ++ new ∧
        new.map (fun x => x.Ref)
          = (acts.filter (fun a => a.failsOnDictionary P)).map (fun a => a.core.Reference) ∧
        new.length = (acts.filter (fun a => a.failsOnDictionary P)).length) ∧
      (executeAllDictionary P acts d tr).1
        = (executeAllDictionary P (acts.filter (fun a => !a.failsOnDictionary P)) d tr).1) ∧
    ((∃ new : List Diagnostic,
        (executeAllEnum P acts e targets tr).trans.errors = tr.errors ++ new ∧
        new.map (fun x => x.Ref)
          = (acts.filter (fun a => a.failsOnEnum P targets)).map (fun a => a.core.Reference) ∧
        new.length = (acts.filter (fun a => a.failsOnEnum P targets)).length) ∧
      (executeAllEnum P acts e targets tr).instance_
        = (executeAllEnum P (acts.filter (fun a => !a.failsOnEnum P targets)) e targets
            tr).instance_) ∧
    ((∃ new : List Diagnostic,
        (executeAllInterface P acts v targets tr).trans.errors = tr.errors ++ new ∧
        new.map (fun x => x.Ref)
          = (acts.filter (fun a => a.failsOnInterface P targets)).map
              (fun a => a.core.Reference) ∧
        new.length = (acts.filter (fun a => a.failsOnInterface P targets)).length) ∧
      (executeAllInterface P acts v targets tr).instance_
        = (executeAllInterface P (acts.filter (fun a => !a.failsOnInterface P targets)) v
            targets tr).instance_)) ∧
    ((∀ (Name Value : String) (Ref : ref) (f : Callback → String → Callback) (x : Callback)
        (t : Transform), P.callbackProperties Name = some f →
        (Action.property Name Value Ref).ExecuteCallback P x t = (f x Value, t)) ∧
      (∀ (a : Action) (x : Callback) (t : Transform),
        (a.ExecuteCallback P x t).1 = a.onCallback P x) ∧
      (∀ (a : Action) (x : Callback), a.failsOnCallback P = true → a.onCallback P x = x) ∧
      (executeAllCallback P acts c tr).1 = acts.foldl (fun x a => a.onCallback P x) c) ∧
    ((∀ (Name Value : String) (Ref : ref) (f : Dictionary → String → Dictionary)
        (x : Dictionary) (t : Transform), P.dictionaryProperties Name = some f →
        (Action.property Name Value Ref).ExecuteDictionary P x t = (f x Value, t)) ∧
      (∀ (a : Action) (x : Dictionary) (t : Transform),
        (a.ExecuteDictionary P x t).1 = a.onDictionary P x) ∧
      (∀ (a : Action) (x : Dictionary), a.failsOnDictionary P = true →
        a.onDictionary P x = x) ∧
      (executeAllDictionary P acts d tr).1 = acts.foldl (fun x a => a.onDictionary P x) d) ∧
    ((∀ (Name Value : String) (Ref : ref) (f : Enum → String → Enum) (x : Enum)
        (t : Transform), P.enumProperties Name = some f →
        (Action.property Name Value Ref).ExecuteEnum P x targets t = ⟨f x Value, targets, t⟩) ∧
      (∀ (Name Value : String) (Ref : ref) (i : Nat) (x : Enum) (t : Transform),
        targets Name = some i →
        (Action.rename Name Value Ref).ExecuteEnum P x targets t
          = ⟨{ x with members := assignDef Value i x.members }, targets, t⟩) ∧
      (∀ (a : Action) (x : Enum) (t : Transform),
        (a.ExecuteEnum P x targets t).instance_ = a.onEnum P targets x) ∧
      (∀ (a : Action) (x : Enum), a.failsOnEnum P targets = true →
        a.onEnum P targets x = x) ∧
      (executeAllEnum P acts e targets tr).instance_
        = acts.foldl (fun x a => a.onEnum P targets x) e) ∧
    ((∀ (Name Value : String) (Ref : ref) (f : Interface → String → Interface) (x : Interface)
        (t : Transform), P.interfaceProperties Name = some f →
        (Action.property Name Value Ref).ExecuteInterface P x targets t
          = ⟨f x Value, targets, t⟩) ∧
      (∀ (Name Value : String) (Ref : ref) (i : Nat) (x : Interface) (t : Transform),
        targets Name = some i →
        (Action.rename Name Value Ref).ExecuteInterface P x targets t
          = ⟨{ x with members := assignDef Value i x.members }, targets, t⟩) ∧
      (∀ (a : Action) (x : Interface) (t : Transform),
        (a.ExecuteInterface P x targets t).instance_ = a.onInterface P targets x) ∧
      (∀ (a : Action) (x : Interface), a.failsOnInterface P targets = true →
        a.onInterface P targets x = x) ∧
      (executeAllInterface P acts v targets tr).instance_
        = acts.foldl (fun x a => a.onInterface P targets x) v) := by
  refine ⟨diagnostics_accumulate P acts c d e v targets tr, ?_, ?_, ?_, ?_⟩
  · refine ⟨?_, fun a x t => callback_step_effect P a x t,
      fun a x h => callback_fails_effect P a h x, callback_run_effect P acts c tr⟩
    intro Name Value Ref f x t hf
    simp [Action.ExecuteCallback, hf]
  · refine ⟨?_, fun a x t => dictionary_step_effect P a x t,
      fun a x h => dictionary_fails_effect P a h x, dictionary_run_effect P acts d tr⟩
    intro Name Value Ref f x t hf
    simp [Action.ExecuteDictionary, hf]
  · refine ⟨?_, fun Name Value Ref i x t h => rename_enum_found P Name Value Ref x targets t i h,
      fun a x t => enum_step_effect P targets a x t,
      fun a x h => enum_fails_effect P targets a h x, enum_run_effect P targets acts e tr⟩
    intro Name Value Ref f x t hf
    simp [Action.ExecuteEnum, hf]
  · refine ⟨?_,
      fun Name Value Ref i x t h => rename_interface_found P Name Value Ref x targets t i h,
      fun a x t => interface_step_effect P targets a x t,
      fun a x h => interface_fails_effect P targets a h x,
      interface_run_effect P targets acts v tr⟩
    intro Name Value Ref f x t hf
    simp [Action.ExecuteInterface, hf]

/-- Witness of C7: on the sample callback the key `package` has a setter, so
the action `package = html` moves the callback to package `html`; in the list
unknown key, `package = html`, rename, the first and the last action fail with
one diagnostic each and the second still applies its mutation. -/
theorem errors_accumulate_in_order_witness :
    sampleTables.callbackProperties "package"
      = some (fun c v => { c with name := { c.name with Package := v } }) ∧
    (Action.property "package" "html" sampleRef).ExecuteCallback sampleTables sampleCallback ⟨[]⟩
      = ({ sampleCallback with name := { sampleCallback.name with Package := "html" } }, ⟨[]⟩) ∧
    (executeAllCallback sampleTables
        [Action.property "colour" "red" sampleRef, Action.property "package" "html" sampleRef,
         Action.rename "a" "b" sampleRef] sampleCallback ⟨[]⟩).1.name.Package = "html" ∧
    (executeAllCallback sampleTables
        [Action.property "colour" "red" sampleRef, Action.property "package" "html" sampleRef,
         Action.rename "a" "b" sampleRef] sampleCallback ⟨[]⟩).2.errors.length = 2 :=
  ⟨by simp [sampleTables],
    (errors_accumulate_in_order sampleTables [] sampleCallback sampleDictionary sampleEnum
      sampleInterface sampleEnumTargets ⟨[]⟩).2.1.1 "package" "html" sampleRef
      (fun c v => { c with name := { c.name with Package := v } }) sampleCallback
      ⟨[]⟩ (by simp [sampleTables]),
    by decide, by decide⟩

end transform

/-! ## Theorems: `gowasm/gowasm.go` -/

namespace gowasm

open types

theorem rangeAdd_eq (s : List Nat) (ps : List (List Nat)) (found : Bool) (out : List Nat)
    (ignore : Bool) :
    rangeAdd s ps (found, out, ignore)
      = if ps.any (fun p => HasPrefix s p) then
          (true, if ignore then out else out ++ [10], true)
        else (found, out, ignore) := by
  induction ps generalizing found out ignore with
  | nil => simp [rangeAdd]
  | cons p ps ih =>
    cases hp : HasPrefix s p with
    | true =>
      have h1 : rangeAdd s (p :: ps) (found, out, ignore)
          = rangeAdd s ps (true, if !ignore then out ++ [10] else out, true) := by
        simp [rangeAdd, hp]
      rw [h1, ih]
      cases ignore <;> simp [hp]
    | false =>
      have h1 : rangeAdd s (p :: ps) (found, out, ignore)
          = rangeAdd s ps (found, out, ignore) := by
        simp [rangeAdd, hp]
      rw [h1, ih]
      simp [hp]

theorem ReadString_line (s rest : List Nat) (h : IsLine s) :
    ReadString 10 (s ++ rest) = (s, rest, false) := by
  obtain ⟨t, rfl, ht⟩ := h
  induction t with
  | nil => simp [ReadString]
  | cons a t ih =>
    have ha : a ≠ 10 := fun h => ht (by simp [h])
    have ht' : 10 ∉ t := fun h => ht (by simp [h])
    have h1 := ih ht'
    show ReadString 10 (a :: (t ++ [10] ++ rest)) = _
    rw [ReadString, h1]
    simp [ha]

theorem ReadString_rest (tail : List Nat) (h : 10 ∉ tail) : (ReadString 10 tail).2.2 = true := by
  induction tail with
  | nil => rfl
  | cons a t ih =>
    have ha : a ≠ 10 := fun h' => h (by simp [h'])
    have ht : 10 ∉ t := fun h' => h (by simp [h'])
    simp [ReadString, ha, ih ht]

theorem removeLoop_lines (ls : List (List Nat)) (tail : List Nat)
    (hls : ∀ l ∈ ls, IsLine l) (htail : 10 ∉ tail) (fuel : Nat) (hfuel : ls.length < fuel)
    (out : List Nat) (ignore : Bool) :
    removeLoop fuel (ls.flatten ++ tail) out ignore
      = some (out ++ (emitLines ignore ls).flatten) := by
  induction ls generalizing fuel out ignore with
  | nil =>
    cases fuel with
    | zero => simp at hfuel
    | succ n => simp [removeLoop, ReadString_rest tail htail, emitLines]
  | cons s ls ih =>
    cases fuel with
    | zero => simp at hfuel
    | succ n =>
      have hs : IsLine s := hls s (by simp)
      have hls' : ∀ l ∈ ls, IsLine l := fun l hl => hls l (by simp [hl])
      have hn : ls.length < n := by simpa using hfuel
      have hread : ReadString 10 ((s :: ls).flatten ++ tail) = (s, ls.flatten ++ tail, false) := by
        rw [List.flatten_cons, List.append_assoc]
        exact ReadString_line s _ hs
      simp only [removeLoop, hread]
      cases hb : trimsToEmpty s with
      | true => simp [emitLines, hb, ih hls' n hn]
      | false =>
        rw [rangeAdd_eq]
        cases hd : isDeclLine s with
        | true =>
          have hd' : (add.any fun p => HasPrefix s p) = true := hd
          cases ignore <;> simp [emitLines, hb, hd, hd', ih hls' n hn]
        | false =>
          have hd' : (add.any fun p => HasPrefix s p) = false := hd
          simp [emitLines, hb, hd, hd', ih hls' n hn]

theorem isLine_newline : IsLine [10] := ⟨[], rfl, by simp⟩

theorem isLine_cons (b : Nat) (l : List Nat) (hb : b ≠ 10) (hl : IsLine l) : IsLine (b :: l) := by
  obtain ⟨t, rfl, ht⟩ := hl
  refine ⟨b :: t, rfl, ?_⟩
  intro h
  rcases List.mem_cons.1 h with h | h
  · exact hb h.symm
  · exact ht h

theorem isLine_length_pos (l : List Nat) (hl : IsLine l) : 0 < l.length := by
  obtain ⟨t, rfl, _⟩ := hl
  simp

theorem splitLines_spec (b : List Nat) :
    b = (splitLines b).1.flatten ++ (splitLines b).2 ∧
    (∀ l ∈ (splitLines b).1, IsLine l) ∧ 10 ∉ (splitLines b).2 := by
  induction b with
  | nil => simp [splitLines]
  | cons a bs ih =>
    obtain ⟨h1, h2, h3⟩ := ih
    by_cases ha : a = 10
    · subst ha
      simp only [splitLines, if_true]
      refine ⟨?_, ?_, h3⟩
      · rw [List.flatten_cons]
        simp only [List.singleton_append, List.cons_append, List.nil_append]
        rw [← h1]
      · intro l hl
        rcases List.mem_cons.1 hl with hl | hl
        · rw [hl]; exact isLine_newline
        · exact h2 l hl
    · cases hr : (splitLines bs).1 with
      | nil =>
        rw [hr] at h1
        simp only [splitLines, ha, if_false, hr]
        refine ⟨?_, by simp, ?_⟩
        · simp only [List.flatten_nil, List.nil_append] at h1 ⊢
          rw [← h1]
        · intro h
          rcases List.mem_cons.1 h with h | h
          · exact ha h.symm
          · exact h3 h
      | cons l ls =>
        rw [hr] at h1 h2
        simp only [splitLines, ha, if_false, hr]
        refine ⟨?_, ?_, h3⟩
        · rw [List.flatten_cons] at h1 ⊢
          simp only [List.cons_append]
          rw [← h1]
        · intro x hx
          rcases List.mem_cons.1 hx with hx | hx
          · rw [hx]; exact isLine_cons a l ha (h2 l (by simp))
          · exact h2 x (by simp [hx])

theorem emitLines_mem (ignore : Bool) (ls : List (List Nat)) :
    ∀ l ∈ emitLines ignore ls, l = [10] ∨ (trimsToEmpty l = false ∧ l ∈ ls) := by
  induction ls generalizing ignore with
  | nil => simp [emitLines]
  | cons s ls ih =>
    intro l hl
    have hrec : ∀ ig, l ∈ emitLines ig ls →
        l = [10] ∨ (trimsToEmpty l = false ∧ l ∈ s :: ls) := by
      intro ig h
      rcases ih ig l h with h | h
      · exact Or.inl h
      · exact Or.inr ⟨h.1, List.mem_cons_of_mem _ h.2⟩
    cases hb : trimsToEmpty s with
    | true =>
      simp only [emitLines, hb, if_true] at hl
      exact hrec ignore hl
    | false =>
      have hself : l = s → l = [10] ∨ (trimsToEmpty l = false ∧ l ∈ s :: ls) := by
        intro h
        subst h
        exact Or.inr ⟨hb, List.mem_cons_self _ _⟩
      cases hd : isDeclLine s with
      | true =>
        cases ignore with
        | true =>
          have hl' : l = s ∨ l ∈ emitLines true ls := by
            simpa [emitLines, hb, hd] using hl
          exact hl'.elim hself (hrec true)
        | false =>
          have hl' : l = [10] ∨ l = s ∨ l ∈ emitLines true ls := by
            simpa [emitLines, hb, hd] using hl
          exact hl'.elim Or.inl (fun h => h.elim hself (hrec true))
      | false =>
        have hl' : l = s ∨ l ∈ emitLines false ls := by
          simpa [emitLines, hb, hd] using hl
        exact hl'.elim hself (hrec false)

theorem emitLines_isLine (ignore : Bool) (ls : List (List Nat)) (hls : ∀ l ∈ ls, IsLine l) :
    ∀ l ∈ emitLines ignore ls, IsLine l := by
  intro l hl
  rcases emitLines_mem ignore ls l hl with h | h
  · rw [h]; exact isLine_newline
  · exact hls l h.2

theorem trimsToEmpty_newline : trimsToEmpty [10] = true := by decide

theorem emitLines_emitLines (ignore : Bool) (ls : List (List Nat)) :
    emitLines ignore (emitLines ignore ls) = emitLines ignore ls := by
  induction ls generalizing ignore with
  | nil => simp [emitLines]
  | cons s ls ih =>
    cases hb : trimsToEmpty s with
    | true => simp only [emitLines, hb, if_true, ih]
    | false =>
      cases hd : isDeclLine s with
      | true =>
        cases ignore with
        | true =>
          simp only [emitLines, hb, hd, if_true, List.singleton_append]
          simp [emitLines, hb, hd, ih]
        | false =>
          simp only [emitLines, hb, hd, if_true, List.cons_append, List.nil_append]
          simp [emitLines, hb, hd, ih, trimsToEmpty_newline]
      | false =>
        simp only [emitLines, hb, hd]
        simp [emitLines, hb, hd, ih]

theorem length_le_flatten_length (L : List (List Nat)) (h : ∀ l ∈ L, IsLine l) :
    L.length ≤ L.flatten.length := by
  induction L with
  | nil => simp
  | cons l L ih =>
    have h1 := isLine_length_pos l (h l (by simp))
    have h2 := ih (fun x hx => h x (by simp [hx]))
    simp only [List.flatten_cons, List.length_append, List.length_cons]
    omega

theorem length_linesOf_le (b : List Nat) : (linesOf b).length ≤ b.length := by
  obtain ⟨h1, h2, _⟩ := splitLines_spec b
  have h3 := length_le_flatten_length (linesOf b) h2
  have h4 : b.length = (linesOf b).flatten.length + (splitLines b).2.length := by
    conv_lhs => rw [h1]
    simp [linesOf]
  omega

/-- The loop of `sourceCodeRemoveEmptyLines` ends within its fuel on every
buffer, and the result is the concatenation of the lines `emitLines` lists for
the newline-terminated lines of the buffer. -/
theorem sourceCodeRemoveEmptyLines_eq (b : List Nat) :
    sourceCodeRemoveEmptyLines b = some (emitLines false (linesOf b)).flatten := by
  obtain ⟨h1, h2, h3⟩ := splitLines_spec b
  have h := removeLoop_lines (linesOf b) (splitLines b).2 h2 h3 (b.length + 1)
    (Nat.lt_succ_of_le (length_linesOf_le b)) [] false
  unfold sourceCodeRemoveEmptyLines
  have h5 : (linesOf b).flatten ++ (splitLines b).2 = b := h1.symm
  rw [h5] at h
  simpa using h

theorem sourceCodeRemoveEmptyLines_flatten (L : List (List Nat)) (hL : ∀ l ∈ L, IsLine l) :
    sourceCodeRemoveEmptyLines L.flatten = some (emitLines false L).flatten := by
  have h := removeLoop_lines L [] hL (by simp) (L.flatten.length + 1)
    (Nat.lt_succ_of_le (length_le_flatten_length L hL)) [] false
  unfold sourceCodeRemoveEmptyLines
  simpa using h

/-- C8: the blank-line normalisation is idempotent. For every buffer `b` the
pass returns an output `o`, and the pass applied to `o` returns `o` again. -/
theorem sourceCodeRemoveEmptyLines_idempotent (b : List Nat) :
    ∃ o, sourceCodeRemoveEmptyLines b = some o ∧ sourceCodeRemoveEmptyLines o = some o := by
  refine ⟨(emitLines false (linesOf b)).flatten, sourceCodeRemoveEmptyLines_eq b, ?_⟩
  rw [sourceCodeRemoveEmptyLines_flatten _
    (emitLines_isLine false (linesOf b) (splitLines_spec b).2.1), emitLines_emitLines]

/-! ### Declaration lines and the blank line in front of them -/

theorem splitLines_line_append (l rest : List Nat) (hl : IsLine l) :
    splitLines (l ++ rest) = (l :: (splitLines rest).1, (splitLines rest).2) := by
  obtain ⟨t, rfl, ht⟩ := hl
  induction t with
  | nil => simp [splitLines]
  | cons a t ih =>
    have ha : a ≠ 10 := fun h => ht (by simp [h])
    have ht' : 10 ∉ t := fun h => ht (by simp [h])
    have h1 := ih ht'
    show splitLines (a :: (t ++ [10] ++ rest)) = _
    rw [splitLines, h1]
    simp [ha]

theorem linesOf_flatten (L : List (List Nat)) (hL : ∀ l ∈ L, IsLine l) :
    linesOf L.flatten = L := by
  induction L with
  | nil => rfl
  | cons l L ih =>
    have h1 := ih (fun x hx => hL x (by simp [hx]))
    unfold linesOf at h1 ⊢
    rw [List.flatten_cons, splitLines_line_append l _ (hL l (by simp)), h1]

theorem isDeclLine_newline : isDeclLine [10] = false := by decide

theorem emitLines_chain (ls : List (List Nat)) (ignore : Bool) (a : List Nat)
    (ha : trimsToEmpty a = false) (hig : ignore = true → isDeclLine a = true)
    (hig2 : ignore = false → isDeclLine a = false) :
    List.Chain Follows a (emitLines ignore ls) := by
  induction ls generalizing ignore a with
  | nil => simp [emitLines]
  | cons s ls ih =>
    cases hb : trimsToEmpty s with
    | true =>
      simp only [emitLines, hb, if_true]
      exact ih ignore a ha hig hig2
    | false =>
      have hnb : trimsToEmpty s = true → trimsToEmpty a = false ∧ isDeclLine a = false := by
        intro h
        rw [hb] at h
        cases h
      have hna : trimsToEmpty a = true →
          a = [10] ∧ isDeclLine s = true ∧ trimsToEmpty s = false := by
        intro h
        rw [ha] at h
        cases h
      cases hd : isDeclLine s with
      | true =>
        have hrest := ih true s hb (fun _ => hd) (fun h => by cases h)
        cases ignore with
        | true =>
          simp only [emitLines, hb, hd, if_true, List.singleton_append]
          exact List.Chain.cons ⟨hna, fun _ => Or.inr (hig rfl), hnb⟩ hrest
        | false =>
          simp only [emitLines, hb, hd, if_true, List.cons_append, List.nil_append]
          refine List.Chain.cons ⟨?_, ?_, fun _ => ⟨ha, hig2 rfl⟩⟩
            (List.Chain.cons ⟨fun _ => ⟨rfl, hd, hb⟩, fun _ => Or.inl rfl, ?_⟩ hrest)
          · intro h
            rw [ha] at h
            cases h
          · intro h
            rw [isDeclLine_newline] at h
            cases h
          · intro h
            rw [hb] at h
            cases h
      | false =>
        have hrest := ih false s hb (fun h => by cases h) (fun _ => hd)
        simp only [emitLines, hb, hd]
        refine List.Chain.cons ⟨?_, ?_, hnb⟩ hrest
        · intro h
          rw [ha] at h
          cases h
        · intro h
          rw [hd] at h
          cases h

theorem chain_adjacent {R : List Nat → List Nat → Prop} (L : List (List Nat)) (a : List Nat)
    (h : List.Chain R a L) (j : Nat) (x y : List Nat)
    (hx : (a :: L)[j]? = some x) (hy : (a :: L)[j + 1]? = some y) : R x y := by
  induction L generalizing a j with
  | nil => simp at hy
  | cons b L ih =>
    obtain ⟨hab, hrest⟩ := List.chain_cons.1 h
    cases j with
    | zero =>
      simp at hx hy
      rw [← hx, ← hy]
      exact hab
    | succ k =>
      have hx' : (b :: L)[k]? = some x := by simpa using hx
      have hy' : (b :: L)[k + 1]? = some y := by simpa using hy
      exact ih b hrest k hx' hy'

/-- Counterexample to C9 as stated: for the buffer `// f`, `func f()` the
output is an empty line, `// f`, `func f()`; its third line is a declaration
line, and the line right before it, `// f`, is not blank. -/
theorem decl_line_after_decl_line_gets_no_blank :
    sourceCodeRemoveEmptyLines (ascii "// f\nfunc f()\n") = some (ascii "\n// f\nfunc f()\n") ∧
    linesOf (ascii "\n// f\nfunc f()\n") = [ascii "\n", ascii "// f\n", ascii "func f()\n"] ∧
    isDeclLine (ascii "func f()\n") = true ∧
    trimsToEmpty (ascii "// f\n") = false := by
  decide

/-- C9, amended: in the output of `sourceCodeRemoveEmptyLines` every
declaration line (prefix `//`, `func`, `type`, `const` or `var`) is never the
first line and is immediately preceded either by another declaration line,
which is not blank, or by exactly one blank line: an empty line that is the
first line of the output or follows a line that is neither blank nor a
declaration line. So only the first line of a run of consecutive declaration
lines has the blank line in front of it, and a declaration line that follows
another declaration line has none. -/
theorem decl_line_preceded_by_blank_or_decl (b : List Nat) :
    ∃ o, sourceCodeRemoveEmptyLines b = some o ∧
      ∀ (k : Nat) (l : List Nat), (linesOf o)[k]? = some l → isDeclLine l = true →
        0 < k ∧ ∃ p, (linesOf o)[k - 1]? = some p ∧
          ((p = [10] ∧ ∀ q, 2 ≤ k → (linesOf o)[k - 2]? = some q →
              trimsToEmpty q = false ∧ isDeclLine q = false) ∨
            (isDeclLine p = true ∧ trimsToEmpty p = false)) := by
  refine ⟨(emitLines false (linesOf b)).flatten, sourceCodeRemoveEmptyLines_eq b, ?_⟩
  rw [linesOf_flatten _ (emitLines_isLine false (linesOf b) (splitLines_spec b).2.1)]
  have hb0 : trimsToEmpty [120, 10] = false := by decide
  have hd0 : isDeclLine [120, 10] = false := by decide
  have hchain := emitLines_chain (linesOf b) false [120, 10] hb0 (fun h => by cases h)
    (fun _ => hd0)
  generalize emitLines false (linesOf b) = L at hchain
  intro k l hl hdecl
  have hadj := chain_adjacent L [120, 10] hchain
  cases k with
  | zero =>
    have h := (hadj 0 [120, 10] l (by simp) (by simpa using hl)).2.1 hdecl
    rcases h with h | h
    · cases h
    · rw [hd0] at h
      cases h
  | succ j =>
    refine ⟨Nat.succ_pos j, ?_⟩
    have hj : j < L.length := by
      have := (List.getElem?_eq_some_iff.1 hl).1
      omega
    refine ⟨L[j], by simp [hj], ?_⟩
    have hfol := hadj (j + 1) L[j] l (by simp [hj]) (by simpa using hl)
    rcases hfol.2.1 hdecl with h | h
    · refine Or.inl ⟨h, ?_⟩
      intro q hk hq
      have hj1 : j = (j - 1) + 1 := by omega
      have hq' : (L)[j - 1]? = some q := by
        have : j + 1 - 2 = j - 1 := by omega
        rw [this] at hq
        exact hq
      have h2 := (hadj j q L[j] (by
        rw [hj1]
        simpa using hq') (by simp [hj])).2.2
      exact h2 (by rw [h]; exact trimsToEmpty_newline)
    · refine Or.inr ⟨h, ?_⟩
      cases hpb : trimsToEmpty L[j] with
      | false => rfl
      | true =>
        have h3 := (hfol.1 hpb).1
        rw [h3, isDeclLine_newline] at h
        cases h

set_option maxRecDepth 100000 in
/-- The amended C9 on a sample: in the output for `x`, `// f`, `func f()`,
`y`, `var z` the run `// f`, `func f()` has one empty line in front of it and
none inside, and `var z` has its own empty line. -/
theorem decl_line_runs_sample :
    sourceCodeRemoveEmptyLines (ascii "x
// f
func f()
y
var z
")
      = some (ascii "x

// f
func f()
y

var z
") := by
  decide

/-! ## Theorems: `gowasm/callback.go` -/

theorem void_conditions (H : Helpers) (cb : Callback) (hvoid : IsVoid cb.Return = true)
    (c : Cond) : (setupCallbackData H cb).holds c = false := by
  cases hr : cb.Return with
  | void => cases c <;> simp [callbackData.holds, setupCallbackData, hr, IsVoid, TypeRef.DefaultParam]
  | named info => simp [hr, IsVoid] at hvoid

theorem execute_no_opt (H : Helpers) (data : callbackData H)
    (hdata : ∀ c, data.holds c = false) (ns : List Node) :
    ∀ p ∈ execute data ns, ∀ (c : Cond) (s : String), p ≠ Piece.opt c s := by
  induction ns with
  | nil => simp [execute]
  | cons n ns ih =>
    intro p hp c s
    cases n with
    | text t =>
      rcases List.mem_cons.1 (by simpa [execute] using hp) with h | h
      · rw [h]; simp
      · exact ih p h c s
    | field f =>
      rcases List.mem_cons.1 (by simpa [execute] using hp) with h | h
      · rw [h]; simp
      · exact ih p h c s
    | when c' body =>
      have hp' : p ∈ execute data ns := by simpa [execute, hdata c'] using hp
      exact ih p hp' c s

/-- C10: for a callback whose return type is void, `writeCallback` performs no
return-decoding stage (no chunk is written by the `unpack` stage, whatever the
writers do), and none of the text it emits comes from an `{{if}}` block of the
templates, which are the only places of `_result` (wrapper signature),
`_returned := ` (host call) and `_result = _converted`. The `middle` template
renders the result part of the signature with nothing between its brackets but
blanks, the `invoke` template renders the bare host call
`_value.Invoke(_args[0:_end]...)`, and the `end` template the bare `return`. -/
theorem void_callback_no_result_binding (H : Helpers) (cb : Callback)
    (hvoid : IsVoid cb.Return = true) :
    (∀ c ∈ (writeCallback H cb).chunks, c.stage ≠ Stage.unpack ∧
      ∀ p ∈ c.pieces, ∀ (k : Cond) (s : String), p ≠ Piece.opt k s) ∧
    execute (setupCallbackData H cb) middleTmpl
      = [.lit "\n\t\t// TODO: return value\n\t\tcallback(",
         .subst .InOutAllOut (H.AllOut (setupCallbackData H cb).InOut),
         .lit ")\n\t\x7d)\n\treturn &ret\n\x7d\n\nfunc ",
         .subst .TypeDef (H.callbackDefaultParam cb).Def,
         .lit "FromJS(_value js.Value) ",
         .subst .TypeDef (H.callbackDefaultParam cb).Def,
         .lit " \x7b\n\treturn func( ",
         .subst .ParamLine (H.parameterArgumentLine cb.Parameters).1,
         .lit " ) ( ", .lit " ", .subst .ReturnInOut "",
         .lit " ) \x7b\n\t\tvar (\n\t\t\t_args ",
         .subst .ArgVar (setupCallbackData H cb).ArgVar,
         .lit " \n\t\t\t_end int \n\t\t)\n"] ∧
    execute (setupCallbackData H cb) invokeTmpl
      = [.lit "\n\t\t", .lit " _value.Invoke(_args[0:_end]...)\n"] ∧
    execute (setupCallbackData H cb) endTmpl
      = [.lit "\n\t\t", .lit "\n\t\treturn\n\t\x7d\n\x7d\n"] := by
  have hc := void_conditions H cb hvoid
  have hno := execute_no_opt H (setupCallbackData H cb) hc
  have hv : (setupCallbackData H cb).VoidRet = true := hvoid
  have hret : (setupCallbackData H cb).Return.InOut = "" := by
    cases hr : cb.Return with
    | void => simp [setupCallbackData, hr, TypeRef.DefaultParam]
    | named info => simp [hr, IsVoid] at hvoid
  refine ⟨?_, ?_, ?_, ?_⟩
  · intro c hcm
    have hw : ∀ (t : String) (p : Piece), p ∈ [Piece.written t] →
        ∀ (k : Cond) (s : String), p ≠ Piece.opt k s := by
      intro t p hp k s
      rw [List.mem_singleton.1 hp]
      simp
    unfold writeCallback at hcm
    simp only [hv] at hcm
    split at hcm
    · simp only [List.mem_cons, List.mem_singleton, List.not_mem_nil, or_false] at hcm
      rcases hcm with h | h <;> subst h
      · exact ⟨by simp, hno _⟩
      · exact ⟨by simp, hw _⟩
    · split at hcm
      · simp only [List.mem_cons, List.mem_singleton, List.not_mem_nil, or_false] at hcm
        rcases hcm with h | h | h | h <;> subst h
        · exact ⟨by simp, hno _⟩
        · exact ⟨by simp, hw _⟩
        · exact ⟨by simp, hno _⟩
        · exact ⟨by simp, hw _⟩
      · simp only [Bool.not_true, Bool.false_eq_true, if_false, List.mem_cons,
          List.mem_singleton, List.not_mem_nil, or_false] at hcm
        rcases hcm with h | h | h | h | h | h <;> subst h
        · exact ⟨by simp, hno _⟩
        · exact ⟨by simp, hw _⟩
        · exact ⟨by simp, hno _⟩
        · exact ⟨by simp, hw _⟩
        · exact ⟨by simp, hno _⟩
        · exact ⟨by simp, hno _⟩
  · simp [execute, middleTmpl, hc, callbackData.field, hret]
    simp [setupCallbackData]
  · simp [execute, invokeTmpl, hc]
  · simp [execute, endTmpl, hc]

/-- Witness of C10: the sample callback `EventHandler(event)` returns void; its
wrapper is written in six chunks, none of them by the `unpack` stage. -/
theorem void_callback_no_result_binding_witness :
    IsVoid sampleVoidCallback.Return = true ∧
    (writeCallback sampleHelpers sampleVoidCallback).chunks.map (fun c => c.stage)
      = [.start, .decode, .middle, .pack, .invoke, .end_] ∧
    execute (setupCallbackData sampleHelpers sampleVoidCallback) invokeTmpl
      = [.lit "\n\t\t", .lit " _value.Invoke(_args[0:_end]...)\n"] :=
  ⟨rfl, by decide,
    (void_callback_no_result_binding sampleHelpers sampleVoidCallback rfl).2.2.1⟩

/-! ### Order of the stages -/

theorem piecesText_written (t : String) : piecesText [Piece.written t] = t := by
  simp [piecesText, String.join, Piece.str]

theorem writeCallback_chunks_of_ok (H : Helpers) (cb : Callback)
    (hok : (writeCallback H cb).err = none) :
    (writeCallback H cb).chunks
      = [⟨.start, execute (setupCallbackData H cb) startTmpl⟩,
         ⟨.decode, [.written (decodeText H cb)]⟩,
         ⟨.middle, execute (setupCallbackData H cb) middleTmpl⟩,
         ⟨.pack, [.written (packText H cb)]⟩,
         ⟨.invoke, execute (setupCallbackData H cb) invokeTmpl⟩] ++
        (if IsVoid cb.Return = true then [] else [⟨.unpack, [.written (unpackText H cb)]⟩]) ++
        [⟨.end_, execute (setupCallbackData H cb) endTmpl⟩] := by
  have hv : (setupCallbackData H cb).VoidRet = IsVoid cb.Return := rfl
  unfold writeCallback at hok ⊢
  simp only [hv] at hok ⊢
  split at hok
  · simp at hok
  · split at hok
    · simp at hok
    · cases hvoid : IsVoid cb.Return with
      | true => simp [hvoid, decodeText, packText]
      | false =>
        simp only [hvoid, Bool.not_false, if_true] at hok ⊢
        split at hok
        · simp at hok
        · simp [decodeText, packText, unpackText]

theorem execute_count_lit (H : Helpers) (data : callbackData H) (t : String) (ns : List Node) :
    (execute data ns).count (Piece.lit t) = ns.count (Node.text t) := by
  induction ns with
  | nil => rfl
  | cons n ns ih =>
    cases n with
    | text u =>
      by_cases hu : u = t
      · subst hu
        simp [execute, ih]
      · have h1 : (Piece.lit u == Piece.lit t) = false := by simpa using hu
        have h2 : (Node.text u == Node.text t) = false := by simpa using hu
        simp [execute, List.count_cons, ih, h1, h2]
    | field f => simp [execute, List.count_cons, ih]
    | when c body =>
      cases hc : data.holds c <;> simp [execute, List.count_cons, ih, hc]

/-- C11: when `writeCallback` returns no error, the chunks it wrote are, in this
order, the `start` template, the parameter decoding statements, the `middle`
template, the packing statements written for the parameters in their order,
the `invoke` template, the result decoding (present exactly when the return
type is not void) and the `end` template; the text appended to the destination
is the concatenation of these in that order, the `invoke` stage occurs once,
and the host call `_value.Invoke(_args[0:_end]...)` is emitted by the templates
exactly once. -/
theorem writeCallback_stage_order (H : Helpers) (cb : Callback)
    (hok : (writeCallback H cb).err = none) :
    (writeCallback H cb).chunks
      = [⟨.start, execute (setupCallbackData H cb) startTmpl⟩,
         ⟨.decode, [.written (decodeText H cb)]⟩,
         ⟨.middle, execute (setupCallbackData H cb) middleTmpl⟩,
         ⟨.pack, [.written (packText H cb)]⟩,
         ⟨.invoke, execute (setupCallbackData H cb) invokeTmpl⟩] ++
        (if IsVoid cb.Return = true then [] else [⟨.unpack, [.written (unpackText H cb)]⟩]) ++
        [⟨.end_, execute (setupCallbackData H cb) endTmpl⟩] ∧
    (writeCallback H cb).text
      = render H cb startTmpl ++ decodeText H cb ++ render H cb middleTmpl ++ packText H cb ++
        render H cb invokeTmpl ++ (if IsVoid cb.Return = true then "" else unpackText H cb) ++
        render H cb endTmpl ∧
    ((writeCallback H cb).chunks.map (fun c => c.stage)).count Stage.invoke = 1 ∧
    ((writeCallback H cb).chunks.flatMap (fun c => c.pieces)).count
        (Piece.lit " _value.Invoke(_args[0:_end]...)\n") = 1 := by
  have hch := writeCallback_chunks_of_ok H cb hok
  refine ⟨hch, ?_, ?_, ?_⟩
  · unfold Emitted.text
    rw [hch]
    cases hvoid : IsVoid cb.Return <;>
      simp [String.join, render, piecesText_written, String.append_assoc]
  · rw [hch]
    cases hvoid : IsVoid cb.Return <;> simp
  · rw [hch]
    have h1 := execute_count_lit H (setupCallbackData H cb) " _value.Invoke(_args[0:_end]...)\n"
    have hs : startTmpl.count (Node.text " _value.Invoke(_args[0:_end]...)\n") = 0 := by decide
    have hm : middleTmpl.count (Node.text " _value.Invoke(_args[0:_end]...)\n") = 0 := by decide
    have hi : invokeTmpl.count (Node.text " _value.Invoke(_args[0:_end]...)\n") = 1 := by decide
    have he : endTmpl.count (Node.text " _value.Invoke(_args[0:_end]...)\n") = 0 := by decide
    cases hvoid : IsVoid cb.Return <;>
      simp [List.flatMap, List.count_append, h1, hs, hm, hi, he, List.count_cons]

/-- Witness of C11: with the sample helpers no stage fails on the sample
callback `Compare(a, b) -> long`; its seven stages are written in order. -/
theorem writeCallback_stage_order_witness :
    (writeCallback sampleHelpers sampleCompareCallback).err = none ∧
    (writeCallback sampleHelpers sampleCompareCallback).chunks.map (fun c => c.stage)
      = [.start, .decode, .middle, .pack, .invoke, .unpack, .end_] ∧
    ((writeCallback sampleHelpers sampleCompareCallback).chunks.flatMap
        (fun c => c.pieces)).count (Piece.lit " _value.Invoke(_args[0:_end]...)\n") = 1 :=
  ⟨by decide, by decide,
    (writeCallback_stage_order sampleHelpers sampleCompareCallback (by decide)).2.2.2⟩

/-! ## Theorems: `WriteSource` -/

theorem writeType_of_err (value : Element) (conv : writeFn) (st : Run) (e : String)
    (h : st.err = some e) : writeType value conv st = st := by
  cases st with
  | mk target err calls =>
    simp only at h
    subst h
    rfl

theorem getTarget_err (value : Element) (target : Buffers) :
    (getTarget value target).2 = none := by
  cases h : lookupBuffer target value.Package <;> simp [getTarget, h]

theorem writeType_of_ok (value : Element) (conv : writeFn) (st : Run) (h : st.err = none) :
    writeType value conv st
      = ⟨applyJob st.target (value, conv), (conv value).2, st.calls ++ [value]⟩ := by
  unfold writeType applyJob
  have hg : (getTarget value st.target).2 = none := getTarget_err value st.target
  simp only [h, hg]

theorem runJobs_of_err (js : List (Element × writeFn)) (st : Run) (e : String)
    (h : st.err = some e) : runJobs js st = st := by
  induction js with
  | nil => rfl
  | cons j rest ih => rw [runJobs, writeType_of_err j.1 j.2 st e h, ih]

theorem runJobs_append (a b : List (Element × writeFn)) (st : Run) :
    runJobs (a ++ b) st = runJobs b (runJobs a st) := by
  induction a generalizing st with
  | nil => rfl
  | cons j rest ih => exact ih (writeType j.1 j.2 st)

theorem runJobs_spec (js : List (Element × writeFn)) (st : Run) (h : st.err = none) :
    runJobs js st
      = ⟨(executed js).foldl applyJob st.target, firstError js,
         st.calls ++ (executed js).map (fun j => j.1)⟩ := by
  induction js generalizing st with
  | nil =>
    cases st with
    | mk target err calls =>
      simp only at h
      subst h
      simp [runJobs, executed, firstError]
  | cons j rest ih =>
    rw [runJobs, writeType_of_ok j.1 j.2 st h]
    cases hj : (j.2 j.1).2 with
    | some e =>
      rw [runJobs_of_err rest _ e rfl]
      simp [executed, firstError, hj]
    | none =>
      rw [ih _ rfl]
      simp [executed, firstError, hj]

theorem foldl_guard_eq_runJobs {α : Type} (l : List α) (g : α → Bool) (f : α → Element)
    (w : writeFn) (st : Run) :
    l.foldl (fun st e => if g e then writeType (f e) w st else st) st
      = runJobs ((l.filter g).map (fun e => (f e, w))) st := by
  induction l generalizing st with
  | nil => rfl
  | cons a l ih =>
    cases ha : g a <;> simp [List.foldl, List.filter_cons, ha, ih, runJobs]

theorem foldl_eq_runJobs {α : Type} (l : List α) (f : α → Element) (w : α → writeFn)
    (st : Run) :
    l.foldl (fun st e => writeType (f e) (w e) st) st
      = runJobs (l.map (fun e => (f e, w e))) st := by
  induction l generalizing st with
  | nil => rfl
  | cons a l ih => simp [List.foldl, ih, runJobs]

theorem writeAll_eq_runJobs (B : Backend) (conv : Convert) :
    writeAll B conv = runJobs (jobs B conv) ⟨[], none, []⟩ := by
  unfold writeAll jobs
  simp only [runJobs_append, foldl_guard_eq_runJobs, foldl_eq_runJobs]

theorem writeAll_spec (B : Backend) (conv : Convert) :
    writeAll B conv
      = ⟨(executed (jobs B conv)).foldl applyJob [], firstError (jobs B conv),
         (executed (jobs B conv)).map (fun j => j.1)⟩ := by
  rw [writeAll_eq_runJobs, runJobs_spec _ _ rfl]
  simp

/-! ### The buffers -/

theorem lookupBuffer_append_single (m : Buffers) (k : String) (v : List Nat) (p : String) :
    lookupBuffer (m ++ [(k, v)]) p
      = match lookupBuffer m p with
        | some x => some x
        | none => if k = p then some v else none := by
  induction m with
  | nil => simp [lookupBuffer]
  | cons e m ih =>
    obtain ⟨k', v'⟩ := e
    by_cases h : k' = p
    · simp [lookupBuffer, h]
    · simp [lookupBuffer, h, ih]

theorem lookupBuffer_writeBuffer (m : Buffers) (k : String) (t : List Nat) (p : String) :
    lookupBuffer (writeBuffer m k t) p
      = if k = p then (lookupBuffer m p).map (fun b => b ++ t) else lookupBuffer m p := by
  induction m with
  | nil => simp [lookupBuffer, writeBuffer]
  | cons e m ih =>
    obtain ⟨k', v'⟩ := e
    by_cases h : k' = k
    · subst h
      by_cases hp : k' = p
      · simp [lookupBuffer, writeBuffer, hp]
      · simp [lookupBuffer, writeBuffer, hp]
    · by_cases hp : k' = p
      · subst hp
        have hkp : ¬ k = k' := fun hk => h hk.symm
        simp [lookupBuffer, writeBuffer, h, hkp]
      · simp [lookupBuffer, writeBuffer, h, hp, ih]

theorem lookupBuffer_applyJob (target : Buffers) (j : Element × writeFn) (p : String) :
    lookupBuffer (applyJob target j) p
      = if j.1.Package = p then
          some ((lookupBuffer target p).getD (utf8 (headerText p)) ++ (j.2 j.1).1)
        else lookupBuffer target p := by
  unfold applyJob
  rw [lookupBuffer_writeBuffer]
  by_cases hp : j.1.Package = p
  · subst hp
    cases hl : lookupBuffer target j.1.Package with
    | some buf => simp [getTarget, hl]
    | none => simp [getTarget, hl, lookupBuffer_append_single]
  · cases hl : lookupBuffer target j.1.Package with
    | some buf => simp [getTarget, hl, hp]
    | none =>
      simp only [getTarget, hl, hp, if_false, lookupBuffer_append_single]
      cases lookupBuffer target p <;> rfl

theorem lookupBuffer_foldl (ex : List (Element × writeFn)) (target : Buffers) (p : String) :
    lookupBuffer (ex.foldl applyJob target) p
      = match lookupBuffer target p with
        | some buf => some (buf ++ outputsFor p ex)
        | none =>
          if ex.any (fun j => j.1.Package = p) then
            some (utf8 (headerText p) ++ outputsFor p ex)
          else none := by
  induction ex generalizing target with
  | nil => cases h : lookupBuffer target p <;> simp [outputsFor, h]
  | cons j rest ih =>
    rw [List.foldl_cons, ih, lookupBuffer_applyJob]
    by_cases hp : j.1.Package = p
    · cases hl : lookupBuffer target p <;>
        simp [hp, hl, outputsFor, List.filter_cons, List.flatMap_cons, List.append_assoc]
    · have hd : decide (j.1.Package = p) = false := by simp [hp]
      cases hl : lookupBuffer target p with
      | some buf => simp [hp, hl, outputsFor, List.filter_cons]
      | none =>
        simp only [hp, hl, if_false, outputsFor, List.filter_cons, List.any_cons,
          decide_False, Bool.false_or, Bool.false_eq_true]

theorem lookupBuffer_mem (m : Buffers) (k : String) (v : List Nat)
    (h : lookupBuffer m k = some v) : (k, v) ∈ m := by
  induction m with
  | nil => simp [lookupBuffer] at h
  | cons e m ih =>
    obtain ⟨k', v'⟩ := e
    by_cases hk : k' = k
    · simp [lookupBuffer, hk] at h
      simp [hk, h]
    · simp [lookupBuffer, hk] at h
      exact List.mem_cons_of_mem _ (ih h)

theorem lookupBuffer_eq_none (m : Buffers) (k : String) :
    lookupBuffer m k = none ↔ k ∉ m.map (fun e => e.1) := by
  induction m with
  | nil => simp [lookupBuffer]
  | cons e m ih =>
    obtain ⟨k', v'⟩ := e
    by_cases hk : k' = k
    · simp [lookupBuffer, hk]
    · have hk' : ¬ k = k' := fun h => hk h.symm
      simp [lookupBuffer, hk, hk', ih]

theorem lookupBuffer_of_mem (m : Buffers) (k : String) (v : List Nat)
    (hnd : (m.map (fun e => e.1)).Nodup) (h : (k, v) ∈ m) : lookupBuffer m k = some v := by
  induction m with
  | nil => simp at h
  | cons e m ih =>
    obtain ⟨k', v'⟩ := e
    have hnd' := List.nodup_cons.1 hnd
    rcases List.mem_cons.1 h with h | h
    · cases h
      simp [lookupBuffer]
    · have hne : k' ≠ k := by
        intro hk
        apply hnd'.1
        rw [hk]
        exact List.mem_map.2 ⟨(k, v), h, rfl⟩
      simp [lookupBuffer, hne, ih hnd'.2 h]

theorem keys_writeBuffer (m : Buffers) (k : String) (t : List Nat) :
    (writeBuffer m k t).map (fun e => e.1) = m.map (fun e => e.1) := by
  induction m with
  | nil => rfl
  | cons e m ih =>
    obtain ⟨k', v'⟩ := e
    by_cases hk : k' = k <;> simp [writeBuffer, hk, ih]

theorem keys_applyJob_nodup (target : Buffers) (j : Element × writeFn)
    (hnd : (target.map (fun e => e.1)).Nodup) :
    ((applyJob target j).map (fun e => e.1)).Nodup := by
  unfold applyJob
  rw [keys_writeBuffer]
  cases hl : lookupBuffer target j.1.Package with
  | some buf => simpa [getTarget, hl] using hnd
  | none =>
    have hnot := (lookupBuffer_eq_none target j.1.Package).1 hl
    simp only [getTarget, hl, List.map_append, List.map_cons, List.map_nil]
    exact List.Nodup.append hnd (List.nodup_singleton _) (by
      intro a ha hb
      rw [List.mem_singleton.1 hb] at ha
      exact hnot ha)

theorem keys_foldl_nodup (ex : List (Element × writeFn)) (target : Buffers)
    (hnd : (target.map (fun e => e.1)).Nodup) :
    ((ex.foldl applyJob target).map (fun e => e.1)).Nodup := by
  induction ex generalizing target with
  | nil => exact hnd
  | cons j rest ih => exact ih _ (keys_applyJob_nodup target j hnd)

theorem writeAll_keys_nodup (B : Backend) (conv : Convert) :
    ((writeAll B conv).target.map (fun e => e.1)).Nodup := by
  rw [writeAll_spec]
  exact keys_foldl_nodup _ [] List.nodup_nil

/-! ### The loop over the buffers -/

theorem rangeTarget_of_no_entry (B : Backend) (es : List (String × List Nat)) (ret : Files)
    (k : String) (h : ∀ e ∈ es, fileName B e.1 ≠ k) : rangeTarget B es ret k = ret k := by
  induction es generalizing ret with
  | nil => rfl
  | cons e es ih =>
    obtain ⟨k', v'⟩ := e
    have h1 : ¬ k = fileName B k' := fun hk => h (k', v') (by simp) hk.symm
    rw [rangeTarget, ih _ (fun e he => h e (List.mem_cons_of_mem _ he))]
    simp [h1]

theorem rangeTarget_of_entry (B : Backend) (es : List (String × List Nat)) (ret : Files)
    (k : String) (c : List Nat) (hex : ∃ e ∈ es, fileName B e.1 = k)
    (hall : ∀ e ∈ es, fileName B e.1 = k → fileContent B e.2 = c) :
    rangeTarget B es ret k = some c := by
  induction es generalizing ret with
  | nil =>
    obtain ⟨e, he, _⟩ := hex
    simp at he
  | cons e es ih =>
    obtain ⟨k', v'⟩ := e
    rw [rangeTarget]
    by_cases hrest : ∃ e ∈ es, fileName B e.1 = k
    · exact ih _ hrest (fun e he => hall e (List.mem_cons_of_mem _ he))
    · have hnone : ∀ e ∈ es, fileName B e.1 ≠ k := fun e he hk => hrest ⟨e, he, hk⟩
      rw [rangeTarget_of_no_entry B es _ k hnone]
      obtain ⟨e, he, hk⟩ := hex
      rcases List.mem_cons.1 he with he | he
      · subst he
        have hc := hall (k', v') (by simp) hk
        simp only at hk hc
        simp [hk, hc]
      · exact absurd hk (hnone e he)

theorem rangeTarget_isSome_of_entry (B : Backend) (es : List (String × List Nat)) (ret : Files)
    (k : String) (hex : ∃ e ∈ es, fileName B e.1 = k) :
    (rangeTarget B es ret k).isSome = true := by
  induction es generalizing ret with
  | nil =>
    obtain ⟨e, he, _⟩ := hex
    simp at he
  | cons e es ih =>
    obtain ⟨k', v'⟩ := e
    rw [rangeTarget]
    by_cases hrest : ∃ e ∈ es, fileName B e.1 = k
    · exact ih _ hrest
    · have hnone : ∀ e ∈ es, fileName B e.1 ≠ k := fun e he hk => hrest ⟨e, he, hk⟩
      rw [rangeTarget_of_no_entry B es _ k hnone]
      obtain ⟨e, he, hk⟩ := hex
      rcases List.mem_cons.1 he with he | he
      · subst he
        simp only at hk
        simp [hk]
      · exact absurd hk (hnone e he)

theorem rangeTarget_some (B : Backend) (es : List (String × List Nat)) (ret : Files)
    (k : String) (c : List Nat) (h : rangeTarget B es ret k = some c) :
    (∃ e ∈ es, fileName B e.1 = k ∧ c = fileContent B e.2) ∨ ret k = some c := by
  induction es generalizing ret with
  | nil => exact Or.inr h
  | cons e es ih =>
    obtain ⟨k', v'⟩ := e
    rw [rangeTarget] at h
    rcases ih _ h with ⟨e, he, hk, hc⟩ | h2
    · exact Or.inl ⟨e, List.mem_cons_of_mem _ he, hk, hc⟩
    · by_cases hk : k = fileName B k'
      · simp only [hk, if_true] at h2
        exact Or.inl ⟨(k', v'), by simp, hk.symm, (Option.some.inj h2).symm⟩
      · simp only [hk, if_false] at h2
        exact Or.inr h2

/-! ### Gating by the in-use flag -/

set_option maxRecDepth 200000 in
/-- C12, the code at the failing input: the sample store holds an enum and a
callback of package `dom`, neither in use. `WriteSource` skips the enum but
hands the callback to `writeCallback`, creates the buffer of package `dom` for
it, writes the wrapper of the callback to that buffer and returns the file
`dom/dom.go` without an error. -/
theorem unused_callback_is_written :
    sampleUnusedCallback.inUse = false ∧
    (WriteSource sampleBackend id sampleUnusedStore).run.calls
      = [Element.callback sampleUnusedCallback] ∧
    lookupBuffer (WriteSource sampleBackend id sampleUnusedStore).run.target "dom"
      = some (utf8 (headerText "dom") ++
          utf8 (writeCallback sampleHelpers sampleUnusedCallback).text) ∧
    (WriteSource sampleBackend id sampleUnusedStore).err = none ∧
    ((WriteSource sampleBackend id sampleUnusedStore).files.bind
      (fun f => f "dom/dom.go")).isSome = true := by
  decide

/-! ### The returned files -/

theorem firstError_of_ok (js : List (Element × writeFn))
    (h : ∀ j ∈ js, (j.2 j.1).2 = none) : firstError js = none := by
  induction js with
  | nil => rfl
  | cons j rest ih =>
    simp [firstError, h j (by simp), ih (fun i hi => h i (List.mem_cons_of_mem _ hi))]

theorem executed_of_ok (js : List (Element × writeFn))
    (h : ∀ j ∈ js, (j.2 j.1).2 = none) : executed js = js := by
  induction js with
  | nil => rfl
  | cons j rest ih =>
    simp [executed, h j (by simp), ih (fun i hi => h i (List.mem_cons_of_mem _ hi))]

theorem writeSource_of_ok (B : Backend) (visit : Buffers → Buffers) (conv : Convert)
    (hok : ∀ j ∈ jobs B conv, (j.2 j.1).2 = none) :
    (WriteSource B visit conv).err = none ∧
    (WriteSource B visit conv).files
      = some (rangeTarget B (visit (writeAll B conv).target) (fun _ => none)) := by
  have herr : (writeAll B conv).err = none := by
    rw [writeAll_spec]
    exact firstError_of_ok _ hok
  unfold WriteSource
  simp only [herr]
  exact ⟨trivial, trivial⟩

theorem writeSource_run (B : Backend) (visit : Buffers → Buffers) (conv : Convert) :
    (WriteSource B visit conv).run = writeAll B conv := by
  cases h : (writeAll B conv).err <;> simp [WriteSource, h]

theorem fileContent_eq (B : Backend) (buf : List Nat) :
    ∃ o, sourceCodeRemoveEmptyLines buf = some o ∧
      fileContent B buf = (match B.formatSource o with
        | some source => source
        | none => o) := by
  refine ⟨_, sourceCodeRemoveEmptyLines_eq buf, ?_⟩
  unfold fileContent
  rw [sourceCodeRemoveEmptyLines_eq buf]
  rfl

theorem files_at_own_path (B : Backend) (visit : Buffers → Buffers) (conv : Convert)
    (hperm : (visit (writeAll B conv).target).Perm (writeAll B conv).target)
    (p : String) (buf : List Nat) (hp : lookupBuffer (writeAll B conv).target p = some buf)
    (hown : ∀ q buf', lookupBuffer (writeAll B conv).target q = some buf' →
      fileName B q = fileName B p → q = p) :
    rangeTarget B (visit (writeAll B conv).target) (fun _ => none) (fileName B p)
      = some (fileContent B buf) := by
  apply rangeTarget_of_entry
  · exact ⟨(p, buf), hperm.mem_iff.2 (lookupBuffer_mem _ _ _ hp), rfl⟩
  · intro e he hk
    obtain ⟨q, buf'⟩ := e
    have hmem := hperm.mem_iff.1 he
    have hq := lookupBuffer_of_mem _ q buf' (writeAll_keys_nodup B conv) hmem
    have hqp : q = p := hown q buf' hq hk
    subst hqp
    rw [hp] at hq
    cases hq
    rfl

set_option maxRecDepth 200000 in
/-- Counterexample to C13 as stated: the sample store has an enum of package
`a` and one of package `A`; both render without error, the formatter rejects
the normalised buffer of `a` and accepts that of `A`, and both packages have
the path `a/a.go`. When the buffers are visited in the order `a`, `A`, the
content returned at the path of package `a` is not the unformatted text of its
rejected buffer but the formatted source of package `A`. -/
theorem rejected_text_replaced_by_other_package :
    (WriteSource sampleBackend id sampleCaseStore).err = none ∧
    lookupBuffer (WriteSource sampleBackend id sampleCaseStore).run.target "a"
      = some (utf8 (headerText "a") ++ ascii "type Mode int\n") ∧
    (sourceCodeRemoveEmptyLines (utf8 (headerText "a") ++ ascii "type Mode int\n")).bind
      sampleBackend.formatSource = none ∧
    fileName sampleBackend "a" = "a/a.go" ∧
    (WriteSource sampleBackend id sampleCaseStore).files.bind (fun f => f "a/a.go")
      ≠ sourceCodeRemoveEmptyLines (utf8 (headerText "a") ++ ascii "type Mode int\n") ∧
    (WriteSource sampleBackend id sampleCaseStore).files.bind (fun f => f "a/a.go")
      = (sourceCodeRemoveEmptyLines (utf8 (headerText "A") ++ ascii "type Mode int\n")).bind
          sampleBackend.formatSource := by
  decide

/-- C13, amended: when every writer call of `WriteSource` succeeds, `WriteSource`
returns a nil error whatever the formatter does, and for each package with a
buffer whose output path is shared with no other such package, the content
returned at that path is the unformatted text
`sourceCodeRemoveEmptyLines(buffer)` if the formatter rejects it and the
formatter's output if it accepts it. -/
theorem format_failure_keeps_unformatted_text (B : Backend) (visit : Buffers → Buffers)
    (conv : Convert)
    (hperm : (visit (writeAll B conv).target).Perm (writeAll B conv).target)
    (hok : ∀ j ∈ jobs B conv, (j.2 j.1).2 = none) :
    (WriteSource B visit conv).err = none ∧
    ∃ files, (WriteSource B visit conv).files = some files ∧
      ∀ p buf, lookupBuffer (WriteSource B visit conv).run.target p = some buf →
        (∀ q buf', lookupBuffer (WriteSource B visit conv).run.target q = some buf' →
          fileName B q = fileName B p → q = p) →
        ∃ o, sourceCodeRemoveEmptyLines buf = some o ∧
          files (fileName B p) = some (match B.formatSource o with
            | some source => source
            | none => o) := by
  obtain ⟨h1, h2⟩ := writeSource_of_ok B visit conv hok
  refine ⟨h1, _, h2, ?_⟩
  rw [writeSource_run]
  intro p buf hp hown
  obtain ⟨o, ho, hc⟩ := fileContent_eq B buf
  refine ⟨o, ho, ?_⟩
  rw [files_at_own_path B visit conv hperm p buf hp hown, hc]

theorem sampleDomStore_ok :
    ∀ j ∈ jobs sampleBackend sampleDomStore, (j.2 j.1).2 = none := by
  intro j hj
  simp [jobs, sampleDomStore, sampleEnumIn, sampleDomDictionary, sampleDomInterface] at hj
  rcases hj with h | h | h <;> subst h <;> rfl

set_option maxRecDepth 200000 in
theorem sampleDomStore_target :
    (WriteSource sampleBackend id sampleDomStore).run.target
      = [("dom", utf8 (headerText "dom") ++
          ascii "type Mode int\ntype Init struct\ntype Node struct\n")] := by
  decide

/-- Witness of C13, amended: the sample store with one enum, one dictionary and
one interface of package `dom`; all three render, and `dom` is the only
package. -/
theorem format_failure_keeps_unformatted_text_witness :
    (∀ j ∈ jobs sampleBackend sampleDomStore, (j.2 j.1).2 = none) ∧
    (WriteSource sampleBackend id sampleDomStore).err = none ∧
    ∃ files, (WriteSource sampleBackend id sampleDomStore).files = some files ∧
      ∃ o, sourceCodeRemoveEmptyLines (utf8 (headerText "dom") ++
          ascii "type Mode int\ntype Init struct\ntype Node struct\n") = some o ∧
        files (fileName sampleBackend "dom") = some (match sampleBackend.formatSource o with
          | some source => source
          | none => o) := by
  obtain ⟨herr, files, hfiles, hall⟩ := format_failure_keeps_unformatted_text sampleBackend id
    sampleDomStore (List.Perm.refl _) sampleDomStore_ok
  refine ⟨sampleDomStore_ok, herr, files, hfiles, ?_⟩
  apply hall "dom"
  · rw [sampleDomStore_target]
    simp [lookupBuffer]
  · intro q buf' hq _
    rw [sampleDomStore_target] at hq
    simp [lookupBuffer] at hq
    exact hq.1.symm

/-! ### Lazily created buffers -/

/-- C14: for every sequence of `writeType` calls that starts from an empty map
(the error of each call passed on to the next), the elements referenced are
those of the calls up to and including the first failing one, all calls if none
fails; a buffer exists for package `p` exactly when one of these elements is of
package `p`, and it then holds one rendering of the header of `p` followed by
what the writers wrote for the elements of `p`, in call order. A `getTarget`
for a package that has a buffer hands back the map as it is, and a `writeType`
call leaves the buffer of every other package as it was. -/
theorem buffers_created_lazily_seeded_once (js : List (Element × writeFn)) :
    (runJobs js ⟨[], none, []⟩).calls = (executed js).map (fun j => j.1) ∧
    (∀ p, lookupBuffer (runJobs js ⟨[], none, []⟩).target p
      = if (executed js).any (fun j => j.1.Package = p) then
          some (utf8 (headerText p) ++ outputsFor p (executed js))
        else none) ∧
    ((∀ j ∈ js, (j.2 j.1).2 = none) → executed js = js) ∧
    (∀ (value : Element) (target : Buffers) (buf : List Nat),
      lookupBuffer target value.Package = some buf → getTarget value target = (target, none)) ∧
    (∀ (value : Element) (conv : writeFn) (st : Run) (q : String), q ≠ value.Package →
      lookupBuffer (writeType value conv st).target q = lookupBuffer st.target q) := by
  refine ⟨?_, ?_, executed_of_ok js, ?_, ?_⟩
  · rw [runJobs_spec js _ rfl]
    simp
  · intro p
    rw [runJobs_spec js _ rfl]
    simp only [lookupBuffer_foldl, lookupBuffer]
  · intro value target buf h
    simp [getTarget, h]
  · intro value conv st q hq
    cases herr : st.err with
    | some e => rw [writeType_of_err value conv st e herr]
    | none =>
      rw [writeType_of_ok value conv st herr]
      simp only [lookupBuffer_applyJob]
      have hne : ¬ value.Package = q := fun h => hq h.symm
      simp [hne]

/-! ### One file per lower-cased package name -/

set_option maxRecDepth 200000 in
/-- Counterexample to C15 as stated: in the sample store the packages `a` and
`A` both receive output and both have the key `a/a.go`, so the returned map
cannot hold one entry for each; and the content at that key depends on the
order in which the two buffers are visited. -/
theorem two_packages_share_one_file :
    (WriteSource sampleBackend id sampleCaseStore).run.target.map (fun e => e.1) = ["a", "A"] ∧
    fileName sampleBackend "a" = "a/a.go" ∧ fileName sampleBackend "A" = "a/a.go" ∧
    (WriteSource sampleBackend id sampleCaseStore).files.bind (fun f => f "a/a.go")
      ≠ (WriteSource sampleBackend List.reverse sampleCaseStore).files.bind
          (fun f => f "a/a.go") := by
  decide

/-- C15, amended: when every writer call of `WriteSource` succeeds, the
returned map has an entry at a key exactly when the key is
`<lower>/<lower>.go` for the lower-cased name of a package that received
output, and the content of every entry is derived from the buffer of a package
with that key. When no two packages that received output have the same key,
the entry at the key of each package is derived from that package's own buffer
and the returned map is the same for every order in which the buffers are
visited. -/
theorem one_file_per_lowercased_package (B : Backend) (visit : Buffers → Buffers)
    (conv : Convert)
    (hperm : (visit (writeAll B conv).target).Perm (writeAll B conv).target)
    (hok : ∀ j ∈ jobs B conv, (j.2 j.1).2 = none) :
    ∃ files, (WriteSource B visit conv).files = some files ∧
      (∀ k, (files k).isSome = true ↔
        ∃ p buf, lookupBuffer (WriteSource B visit conv).run.target p = some buf ∧
          fileName B p = k) ∧
      (∀ k c, files k = some c →
        ∃ p buf, lookupBuffer (WriteSource B visit conv).run.target p = some buf ∧
          fileName B p = k ∧ c = fileContent B buf) ∧
      ((∀ p q buf buf', lookupBuffer (WriteSource B visit conv).run.target p = some buf →
          lookupBuffer (WriteSource B visit conv).run.target q = some buf' →
          fileName B p = fileName B q → p = q) →
        (∀ p buf, lookupBuffer (WriteSource B visit conv).run.target p = some buf →
          files (fileName B p) = some (fileContent B buf)) ∧
        ∀ visit' : Buffers → Buffers,
          (visit' (writeAll B conv).target).Perm (writeAll B conv).target →
          (WriteSource B visit' conv).files = some files) := by
  obtain ⟨_, h2⟩ := writeSource_of_ok B visit conv hok
  refine ⟨_, h2, ?_, ?_, ?_⟩
  · intro k
    rw [writeSource_run]
    constructor
    · intro h
      obtain ⟨c, hc⟩ := Option.isSome_iff_exists.1 h
      rcases rangeTarget_some B _ _ k c hc with ⟨e, he, hk, _⟩ | h0
      · exact ⟨e.1, e.2, lookupBuffer_of_mem _ e.1 e.2 (writeAll_keys_nodup B conv)
          (hperm.mem_iff.1 he), hk⟩
      · cases h0
    · rintro ⟨p, buf, hp, hk⟩
      exact rangeTarget_isSome_of_entry B _ _ k
        ⟨(p, buf), hperm.mem_iff.2 (lookupBuffer_mem _ _ _ hp), hk⟩
  · intro k c hc
    rw [writeSource_run]
    rcases rangeTarget_some B _ _ k c hc with ⟨e, he, hk, hce⟩ | h0
    · exact ⟨e.1, e.2, lookupBuffer_of_mem _ e.1 e.2 (writeAll_keys_nodup B conv)
        (hperm.mem_iff.1 he), hk, hce⟩
    · cases h0
  · rw [writeSource_run]
    intro hinj
    have hval : ∀ (vis : Buffers → Buffers),
        (vis (writeAll B conv).target).Perm (writeAll B conv).target →
        ∀ p buf, lookupBuffer (writeAll B conv).target p = some buf →
          rangeTarget B (vis (writeAll B conv).target) (fun _ => none) (fileName B p)
            = some (fileContent B buf) := by
      intro vis hvis p buf hp
      exact files_at_own_path B vis conv hvis p buf hp
        (fun q buf' hq hk => hinj q p buf' buf hq hp hk)
    refine ⟨hval visit hperm, ?_⟩
    intro visit' hperm'
    rw [(writeSource_of_ok B visit' conv hok).2]
    congr 1
    funext k
    by_cases hex : ∃ e ∈ (writeAll B conv).target, fileName B e.1 = k
    · obtain ⟨e, he, hk⟩ := hex
      have hl := lookupBuffer_of_mem _ e.1 e.2 (writeAll_keys_nodup B conv) he
      rw [← hk, hval visit' hperm' e.1 e.2 hl, hval visit hperm e.1 e.2 hl]
    · have hno : ∀ (vis : Buffers → Buffers),
          (vis (writeAll B conv).target).Perm (writeAll B conv).target →
          ∀ e ∈ vis (writeAll B conv).target, fileName B e.1 ≠ k :=
        fun vis hvis e he hk => hex ⟨e, hvis.mem_iff.1 he, hk⟩
      rw [rangeTarget_of_no_entry B _ _ k (hno visit' hperm'),
        rangeTarget_of_no_entry B _ _ k (hno visit hperm)]

/-- Witness of C15, amended: the sample store with one enum, one dictionary and
one interface of package `dom`; `dom` is the only package that received output
and its file is `dom/dom.go`. -/
theorem one_file_per_lowercased_package_witness :
    (∀ j ∈ jobs sampleBackend sampleDomStore, (j.2 j.1).2 = none) ∧
    ∃ files, (WriteSource sampleBackend id sampleDomStore).files = some files ∧
      files (fileName sampleBackend "dom")
        = some (fileContent sampleBackend (utf8 (headerText "dom") ++
            ascii "type Mode int\ntype Init struct\ntype Node struct\n")) ∧
      (WriteSource sampleBackend List.reverse sampleDomStore).files = some files := by
  obtain ⟨files, hfiles, _, _, hinj⟩ := one_file_per_lowercased_package sampleBackend id
    sampleDomStore (List.Perm.refl _) sampleDomStore_ok
  have hT := sampleDomStore_target
  have h := hinj (by
    intro p q buf buf' hp hq _
    rw [hT] at hp hq
    simp [lookupBuffer] at hp hq
    rw [← hp.1, ← hq.1])
  refine ⟨sampleDomStore_ok, files, hfiles, ?_, ?_⟩
  · apply h.1
    rw [hT]
    simp [lookupBuffer]
  · exact h.2 List.reverse (List.reverse_perm _)

/-! ### The first writer error -/

theorem executed_of_first_failure (pre post : List (Element × writeFn)) (j : Element × writeFn)
    (e : String) (hpre : ∀ i ∈ pre, (i.2 i.1).2 = none) (hj : (j.2 j.1).2 = some e) :
    executed (pre ++ j :: post) = pre ++ [j] ∧ firstError (pre ++ j :: post) = some e := by
  induction pre with
  | nil => simp [executed, firstError, hj]
  | cons i pre ih =>
    have hi := hpre i (by simp)
    have h := ih (fun x hx => hpre x (List.mem_cons_of_mem _ hx))
    simp [executed, firstError, hi, h.1, h.2]

/-- C19: when the writer of some element fails, and `j` is the first call in
the order enums, callbacks, dictionaries, interfaces whose writer returns an
error `e`, `WriteSource` returns the nil map together with `e`, and the values
handed to a writer are those of the calls up to and including `j`: no writer is
invoked for an element after it. -/
theorem first_writer_error_aborts (B : Backend) (visit : Buffers → Buffers) (conv : Convert)
    (pre post : List (Element × writeFn)) (j : Element × writeFn) (e : String)
    (hjobs : jobs B conv = pre ++ j :: post)
    (hpre : ∀ i ∈ pre, (i.2 i.1).2 = none) (hj : (j.2 j.1).2 = some e) :
    (WriteSource B visit conv).files = none ∧
    (WriteSource B visit conv).err = some e ∧
    (WriteSource B visit conv).run.calls = (pre ++ [j]).map (fun i => i.1) := by
  obtain ⟨hex, hfe⟩ := executed_of_first_failure pre post j e hpre hj
  have hall := writeAll_spec B conv
  rw [hjobs, hex, hfe] at hall
  have herr : (writeAll B conv).err = some e := by rw [hall]
  refine ⟨?_, ?_, ?_⟩
  · simp [WriteSource, herr]
  · simp [WriteSource, herr]
  · rw [writeSource_run, hall]

/-- Witness of C19: with the backend whose dictionary writer fails, the sample
store's enum is written, its dictionary fails and its interface is never handed
to a writer. -/
theorem first_writer_error_aborts_witness :
    (WriteSource sampleFailingBackend id sampleDomStore).files = none ∧
    (WriteSource sampleFailingBackend id sampleDomStore).err = some "unsupported member" ∧
    (WriteSource sampleFailingBackend id sampleDomStore).run.calls
      = [Element.enum (sampleEnumIn "dom" true), Element.dictionary sampleDomDictionary] :=
  first_writer_error_aborts sampleFailingBackend id sampleDomStore
    [(Element.enum (sampleEnumIn "dom" true), sampleFailingBackend.writeEnum)]
    [(Element.interface sampleDomInterface, sampleFailingBackend.writeInterface)]
    (Element.dictionary sampleDomDictionary, sampleFailingBackend.writeDictionary)
    "unsupported member" rfl
    (by
      intro i hi
      rw [List.mem_singleton.1 hi]
      rfl)
    rfl

/-! ## Theorems: blank lines of the normalised output -/

theorem splitLines_flatten (L : List (List Nat)) (hL : ∀ l ∈ L, IsLine l) :
    splitLines L.flatten = (L, []) := by
  induction L with
  | nil => rfl
  | cons l L ih =>
    have h1 := ih (fun x hx => hL x (by simp [hx]))
    rw [List.flatten_cons, splitLines_line_append l _ (hL l (by simp)), h1]

theorem emitLines_blank_followed (ignore : Bool) (ls : List (List Nat)) (k : Nat)
    (l : List Nat) (hl : (emitLines ignore ls)[k]? = some l) (hb : trimsToEmpty l = true) :
    l = [10] ∧ ∃ y, (emitLines ignore ls)[k + 1]? = some y ∧ isDeclLine y = true ∧
      trimsToEmpty y = false := by
  induction ls generalizing ignore k with
  | nil => simp [emitLines] at hl
  | cons s ls ih =>
    cases hs : trimsToEmpty s with
    | true =>
      simp only [emitLines, hs, if_true] at hl ⊢
      exact ih ignore k hl
    | false =>
      cases hd : isDeclLine s with
      | true =>
        cases ignore with
        | true =>
          simp only [emitLines, hs, hd, if_true, List.singleton_append] at hl ⊢
          cases k with
          | zero =>
            simp at hl
            rw [← hl, hs] at hb
            cases hb
          | succ n =>
            have hl' : (emitLines true ls)[n]? = some l := by simpa using hl
            simpa using ih true n hl'
        | false =>
          simp only [emitLines, hs, hd, if_true, List.cons_append, List.nil_append] at hl ⊢
          cases k with
          | zero =>
            simp at hl
            exact ⟨hl.symm, s, by simp, hd, hs⟩
          | succ n =>
            cases n with
            | zero =>
              simp at hl
              rw [← hl, hs] at hb
              cases hb
            | succ m =>
              have hl' : (emitLines true ls)[m]? = some l := by simpa using hl
              simpa using ih true m hl'
      | false =>
        simp only [emitLines, hs, hd] at hl ⊢
        cases k with
        | zero =>
          simp at hl
          rw [← hl, hs] at hb
          cases hb
        | succ n =>
          have hl' : (emitLines false ls)[n]? = some l := by simpa using hl
          simpa using ih false n hl'

/-- C17: for every input buffer the output of `sourceCodeRemoveEmptyLines` is
made of newline-terminated lines only, and every whitespace-only line of it is
an empty line (a lone newline) that is directly followed by a declaration line
(prefix `//`, `func`, `type`, `const` or `var`) which is not blank; so no two
consecutive lines of the output are blank. -/
theorem output_blank_lines_only_before_decl (b : List Nat) :
    ∃ o, sourceCodeRemoveEmptyLines b = some o ∧ (splitLines o).2 = [] ∧
      (∀ (k : Nat) (l : List Nat), (linesOf o)[k]? = some l → trimsToEmpty l = true →
        l = [10] ∧ ∃ y, (linesOf o)[k + 1]? = some y ∧ isDeclLine y = true ∧
          trimsToEmpty y = false) ∧
      (∀ (k : Nat) (x y : List Nat), (linesOf o)[k]? = some x → (linesOf o)[k + 1]? = some y →
        ¬ (trimsToEmpty x = true ∧ trimsToEmpty y = true)) := by
  have hL := emitLines_isLine false (linesOf b) (splitLines_spec b).2.1
  refine ⟨(emitLines false (linesOf b)).flatten, sourceCodeRemoveEmptyLines_eq b, ?_, ?_, ?_⟩
  · rw [splitLines_flatten _ hL]
  · rw [linesOf_flatten _ hL]
    exact fun k l hl hb => emitLines_blank_followed false (linesOf b) k l hl hb
  · rw [linesOf_flatten _ hL]
    rintro k x y hx hy ⟨hbx, hby⟩
    obtain ⟨_, y', hy', _, hny⟩ := emitLines_blank_followed false (linesOf b) k x hx hbx
    rw [hy] at hy'
    cases hy'
    rw [hby] at hny
    cases hny

theorem emitLines_filter (ignore : Bool) (ls : List (List Nat)) :
    (emitLines ignore ls).filter (fun l => !trimsToEmpty l)
      = ls.filter (fun l => !trimsToEmpty l) := by
  induction ls generalizing ignore with
  | nil => rfl
  | cons s ls ih =>
    cases hs : trimsToEmpty s with
    | true => simp [emitLines, hs, List.filter_cons, ih]
    | false =>
      cases hd : isDeclLine s with
      | true =>
        cases ignore <;>
          simp [emitLines, hs, hd, List.filter_cons, ih, trimsToEmpty_newline]
      | false => simp [emitLines, hs, hd, List.filter_cons, ih]

/-- C18: for every input buffer the lines of the output of
`sourceCodeRemoveEmptyLines` that are not blank are, byte for byte and in
order, the newline-terminated lines of the input that are not blank; the
output is what the pass returns for the input cut after its last newline, so
the bytes after the last newline of the input do not reach the output. -/
theorem output_keeps_nonblank_lines (b : List Nat) :
    ∃ o, sourceCodeRemoveEmptyLines b = some o ∧
      (linesOf o).filter (fun l => !trimsToEmpty l)
        = (linesOf b).filter (fun l => !trimsToEmpty l) ∧
      b = (linesOf b).flatten ++ (splitLines b).2 ∧ 10 ∉ (splitLines b).2 ∧
      sourceCodeRemoveEmptyLines (linesOf b).flatten = some o ∧
      (splitLines o).2 = [] := by
  have hb := splitLines_spec b
  have hL := emitLines_isLine false (linesOf b) hb.2.1
  refine ⟨(emitLines false (linesOf b)).flatten, sourceCodeRemoveEmptyLines_eq b, ?_,
    hb.1, hb.2.2, sourceCodeRemoveEmptyLines_flatten _ hb.2.1, ?_⟩
  · rw [linesOf_flatten _ hL, emitLines_filter]
  · rw [splitLines_flatten _ hL]

/-! ## Theorems: the result binding of the wrapper -/

theorem execute_mem_opt (H : Helpers) (data : callbackData H) (c : Cond) (t : String)
    (ns : List Node) :
    Piece.opt c t ∈ execute data ns ↔ data.holds c = true ∧ Node.when c t ∈ ns := by
  induction ns with
  | nil => simp [execute]
  | cons n ns ih =>
    cases n with
    | text u => simp [execute, ih]
    | field f => simp [execute, ih]
    | when c' body =>
      cases hc : data.holds c' with
      | true =>
        have he : execute data (Node.when c' body :: ns)
            = Piece.opt c' body :: execute data ns := by simp [execute, hc]
        rw [he, List.mem_cons, ih]
        constructor
        · rintro (h | ⟨h1, h2⟩)
          · cases h
            exact ⟨hc, List.mem_cons_self _ _⟩
          · exact ⟨h1, List.mem_cons_of_mem _ h2⟩
        · rintro ⟨h1, h2⟩
          rcases List.mem_cons.1 h2 with h2 | h2
          · cases h2
            exact Or.inl rfl
          · exact Or.inr ⟨h1, h2⟩
      | false =>
        have he : execute data (Node.when c' body :: ns) = execute data ns := by
          simp [execute, hc]
        rw [he, ih]
        constructor
        · rintro ⟨h1, h2⟩
          exact ⟨h1, List.mem_cons_of_mem _ h2⟩
        · rintro ⟨h1, h2⟩
          rcases List.mem_cons.1 h2 with h2 | h2
          · cases h2
            rw [hc] at h1
            cases h1
          · exact ⟨h1, h2⟩

set_option maxRecDepth 200000 in
/-- Counterexample to C20 as stated, on two inputs. For the sample callback
`Compare(a, b) -> long` and helpers whose packing writer fails, `writeCallback`
returns the error after the `middle` template: the wrapper signature it has
written declares `_result`, and the assignment `_result = _converted` is never
emitted. For a callback whose return type is not void but has an empty type
text, no stage fails, the signature does not declare `_result`, and the
assignment `_result = _converted` is emitted. -/
theorem result_declared_but_never_assigned :
    (IsVoid sampleCompareCallback.Return = false ∧
      (writeCallback samplePackFailingHelpers sampleCompareCallback).err
        = some "no conversion" ∧
      (writeCallback samplePackFailingHelpers sampleCompareCallback).chunks.map
          (fun c => c.stage) = [.start, .decode, .middle, .pack] ∧
      (writeCallback samplePackFailingHelpers sampleCompareCallback).declaresResult ∧
      ¬ (writeCallback samplePackFailingHelpers sampleCompareCallback).assignsResult) ∧
    (IsVoid sampleUntypedCallback.Return = false ∧
      sampleUntypedCallback.Return.DefaultParam.InOut = "" ∧
      (writeCallback sampleHelpers sampleUntypedCallback).err = none ∧
      ¬ (writeCallback sampleHelpers sampleUntypedCallback).declaresResult ∧
      (writeCallback sampleHelpers sampleUntypedCallback).assignsResult) := by
  decide

theorem length_ne_zero_of_ne_empty (t : String) (h : t ≠ "") : t.length ≠ 0 := by
  intro h0
  apply h
  cases t with
  | mk data =>
    have hd : data = [] := List.length_eq_zero.1 h0
    subst hd
    rfl

theorem writeCallback_chunks_cases (H : Helpers) (cb : Callback) :
    (writeCallback H cb).chunks
        = [⟨.start, execute (setupCallbackData H cb) startTmpl⟩,
           ⟨.decode, [.written (decodeText H cb)]⟩] ∨
    (writeCallback H cb).chunks
        = [⟨.start, execute (setupCallbackData H cb) startTmpl⟩,
           ⟨.decode, [.written (decodeText H cb)]⟩,
           ⟨.middle, execute (setupCallbackData H cb) middleTmpl⟩,
           ⟨.pack, [.written (packText H cb)]⟩] ∨
    (IsVoid cb.Return = true ∧
      (writeCallback H cb).chunks
        = [⟨.start, execute (setupCallbackData H cb) startTmpl⟩,
           ⟨.decode, [.written (decodeText H cb)]⟩,
           ⟨.middle, execute (setupCallbackData H cb) middleTmpl⟩,
           ⟨.pack, [.written (packText H cb)]⟩,
           ⟨.invoke, execute (setupCallbackData H cb) invokeTmpl⟩,
           ⟨.end_, execute (setupCallbackData H cb) endTmpl⟩]) ∨
    (IsVoid cb.Return = false ∧
      (writeCallback H cb).chunks
        = [⟨.start, execute (setupCallbackData H cb) startTmpl⟩,
           ⟨.decode, [.written (decodeText H cb)]⟩,
           ⟨.middle, execute (setupCallbackData H cb) middleTmpl⟩,
           ⟨.pack, [.written (packText H cb)]⟩,
           ⟨.invoke, execute (setupCallbackData H cb) invokeTmpl⟩,
           ⟨.unpack, [.written (unpackText H cb)]⟩]) ∨
    (IsVoid cb.Return = false ∧
      (writeCallback H cb).chunks
        = [⟨.start, execute (setupCallbackData H cb) startTmpl⟩,
           ⟨.decode, [.written (decodeText H cb)]⟩,
           ⟨.middle, execute (setupCallbackData H cb) middleTmpl⟩,
           ⟨.pack, [.written (packText H cb)]⟩,
           ⟨.invoke, execute (setupCallbackData H cb) invokeTmpl⟩,
           ⟨.unpack, [.written (unpackText H cb)]⟩,
           ⟨.end_, execute (setupCallbackData H cb) endTmpl⟩]) := by
  have hv : (setupCallbackData H cb).VoidRet = IsVoid cb.Return := rfl
  cases h2 : (H.writeInOutFromWasm (setupCallbackData H cb).InOut "").2 with
  | some e2 =>
    left
    simp [writeCallback, h2, decodeText]
  | none =>
    right
    cases h4 : (H.writeInOutToWasm (H.setupInOutWasmData cb.Parameters "@name@" "_p%d")
        "_args[%d] = _p%d; _end++").2 with
    | some e4 =>
      left
      simp [writeCallback, h2, h4, decodeText, packText]
    | none =>
      right
      cases hvoid : IsVoid cb.Return with
      | true =>
        left
        simp [writeCallback, h2, h4, hv, hvoid, decodeText, packText]
      | false =>
        right
        cases h6 : (H.writeInOutFromWasm
            (H.setupInOutWasmForType cb.Return "" "_returned" "_converted") "").2 with
        | some e6 =>
          left
          simp [writeCallback, h2, h4, h6, hv, hvoid, decodeText, packText, unpackText]
        | none =>
          right
          simp [writeCallback, h2, h4, h6, hv, hvoid, decodeText, packText, unpackText]

theorem void_callback_pieces (H : Helpers) (cb : Callback)
    (hvoid : IsVoid cb.Return = true) :
    ∀ c ∈ (writeCallback H cb).chunks, c.stage ≠ Stage.unpack ∧
      ∀ p ∈ c.pieces, ∀ (k : Cond) (t : String), p ≠ Piece.opt k t := by
  have hc := void_conditions H cb hvoid
  have hno := execute_no_opt H (setupCallbackData H cb) hc
  have hw : ∀ (t : String) (p : Piece), p ∈ [Piece.written t] →
      ∀ (k : Cond) (u : String), p ≠ Piece.opt k u := by
    intro t p hp k u
    rw [List.mem_singleton.1 hp]
    simp
  intro c hcm
  rcases writeCallback_chunks_cases H cb with h | h | ⟨_, h⟩ | ⟨hv, h⟩ | ⟨hv, h⟩
  · rw [h] at hcm
    simp only [List.mem_cons, List.mem_singleton, List.not_mem_nil, or_false] at hcm
    rcases hcm with h1 | h1 <;> subst h1
    · exact ⟨by simp, hno _⟩
    · exact ⟨by simp, hw _⟩
  · rw [h] at hcm
    simp only [List.mem_cons, List.mem_singleton, List.not_mem_nil, or_false] at hcm
    rcases hcm with h1 | h1 | h1 | h1 <;> subst h1
    · exact ⟨by simp, hno _⟩
    · exact ⟨by simp, hw _⟩
    · exact ⟨by simp, hno _⟩
    · exact ⟨by simp, hw _⟩
  · rw [h] at hcm
    simp only [List.mem_cons, List.mem_singleton, List.not_mem_nil, or_false] at hcm
    rcases hcm with h1 | h1 | h1 | h1 | h1 | h1 <;> subst h1
    · exact ⟨by simp, hno _⟩
    · exact ⟨by simp, hw _⟩
    · exact ⟨by simp, hno _⟩
    · exact ⟨by simp, hw _⟩
    · exact ⟨by simp, hno _⟩
    · exact ⟨by simp, hno _⟩
  · rw [hvoid] at hv
    cases hv
  · rw [hvoid] at hv
    cases hv

/-- C20, amended: for every callback, `writeCallback` binds `_returned :=` on
the host call if and only if it emits the result decoding (the `unpack` stage
writes a chunk), and for a void return type it neither declares `_result` nor
emits `_result = _converted`. When `writeCallback` returns no error, it
declares `_result` in the wrapper signature if and only if the type text
`InOut` of the return type is not empty, and it emits the assignment
`_result = _converted` if and only if the return type is not void; so the
declaration and the assignment go together exactly when the type text is
non-empty exactly for a return type that is not void. -/
theorem result_binding_consistent (H : Helpers) (cb : Callback) :
    ((writeCallback H cb).bindsReturned ↔ (writeCallback H cb).decodesResult) ∧
    (IsVoid cb.Return = true →
      ¬ (writeCallback H cb).declaresResult ∧ ¬ (writeCallback H cb).assignsResult) ∧
    ((writeCallback H cb).err = none →
      ((writeCallback H cb).declaresResult ↔ cb.Return.DefaultParam.InOut ≠ "") ∧
      ((writeCallback H cb).assignsResult ↔ IsVoid cb.Return = false) ∧
      (((writeCallback H cb).declaresResult ↔ (writeCallback H cb).assignsResult) ↔
        (cb.Return.DefaultParam.InOut ≠ "" ↔ IsVoid cb.Return = false))) := by
  have hnv : (setupCallbackData H cb).holds .notVoidRet = !IsVoid cb.Return := rfl
  have hs : ∀ (c : Cond) (t : String), Node.when c t ∉ startTmpl := by
    intro c t
    simp [startTmpl]
  have hm1 : Node.when .notVoidRet "_returned := " ∉ middleTmpl := by decide
  have hi1 : Node.when .notVoidRet "_returned := " ∈ invokeTmpl := by decide
  have he1 : Node.when .notVoidRet "_returned := " ∉ endTmpl := by decide
  have hm2 : Node.when .lenReturnInOut "_result" ∈ middleTmpl := by decide
  have hi2 : Node.when .lenReturnInOut "_result" ∉ invokeTmpl := by decide
  have he2 : Node.when .lenReturnInOut "_result" ∉ endTmpl := by decide
  have hm3 : Node.when .notVoidRet "_result = _converted" ∉ middleTmpl := by decide
  have hi3 : Node.when .notVoidRet "_result = _converted" ∉ invokeTmpl := by decide
  have he3 : Node.when .notVoidRet "_result = _converted" ∈ endTmpl := by decide
  refine ⟨?_, ?_, ?_⟩
  · unfold Emitted.bindsReturned Emitted.decodesResult Emitted.pieces
    rcases writeCallback_chunks_cases H cb with h | h | ⟨hv, h⟩ | ⟨hv, h⟩ | ⟨hv, h⟩
    · rw [h]
      simp [List.flatMap, execute_mem_opt, hs]
    · rw [h]
      simp [List.flatMap, execute_mem_opt, hs, hm1]
    · rw [h]
      simp [List.flatMap, execute_mem_opt, hs, hm1, hi1, he1, hnv, hv]
    · rw [h]
      simp [List.flatMap, execute_mem_opt, hs, hm1, hi1, hnv, hv]
    · rw [h]
      simp [List.flatMap, execute_mem_opt, hs, hm1, hi1, he1, hnv, hv]
  · intro hvoid
    have hc := void_conditions H cb hvoid
    have hno : ∀ (k : Cond) (t : String), Piece.opt k t ∉ (writeCallback H cb).pieces := by
      intro k t hmem
      unfold Emitted.pieces at hmem
      obtain ⟨c, hcm, hp⟩ := List.mem_flatMap.1 hmem
      exact ((void_callback_pieces H cb hvoid) c hcm).2 _ hp k t rfl
    exact ⟨hno _ _, hno _ _⟩
  · intro hok
    have hdecl : (writeCallback H cb).declaresResult ↔ cb.Return.DefaultParam.InOut ≠ "" := by
      unfold Emitted.declaresResult Emitted.pieces
      rw [writeCallback_chunks_of_ok H cb hok]
      have hl : (setupCallbackData H cb).holds .lenReturnInOut = true ↔
          cb.Return.DefaultParam.InOut ≠ "" := by
        constructor
        · intro h he
          have h' : (cb.Return.DefaultParam.InOut.length != 0) = true := h
          rw [he] at h'
          exact absurd h' (by decide)
        · intro h
          have hlen := length_ne_zero_of_ne_empty _ h
          simp [callbackData.holds, setupCallbackData, hlen]
      rw [← hl]
      cases hvoid : IsVoid cb.Return <;>
        simp [List.flatMap, execute_mem_opt, hs, hm2, hi2, he2]
    have hassign : (writeCallback H cb).assignsResult ↔ IsVoid cb.Return = false := by
      unfold Emitted.assignsResult Emitted.pieces
      rw [writeCallback_chunks_of_ok H cb hok]
      cases hvoid : IsVoid cb.Return <;>
        simp [List.flatMap, execute_mem_opt, hs, hm3, hi3, he3, hnv, hvoid]
    exact ⟨hdecl, hassign, by rw [hdecl, hassign]⟩

/-- Witness of C20, amended: with the sample helpers, which never fail, the
wrapper of the sample callback `Compare(a, b) -> long` declares `_result` and
assigns it. -/
theorem result_binding_consistent_witness :
    (writeCallback sampleHelpers sampleCompareCallback).err = none ∧
    ((writeCallback sampleHelpers sampleCompareCallback).declaresResult ↔
      sampleCompareCallback.Return.DefaultParam.InOut ≠ "") ∧
    ((writeCallback sampleHelpers sampleCompareCallback).assignsResult ↔
      IsVoid sampleCompareCallback.Return = false) ∧
    (writeCallback sampleHelpers sampleCompareCallback).declaresResult ∧
    (writeCallback sampleHelpers sampleCompareCallback).assignsResult :=
  have h := (result_binding_consistent sampleHelpers sampleCompareCallback).2.2 (by decide)
  ⟨by decide, h.1, h.2.1, h.1.2 (by decide), h.2.1.2 (by decide)⟩

end gowasm

end WebidlBind
